import Mathlib

/-!
# genezio-operator: the GenezioManager reconciler

A shallow embedding of `internal/controller/geneziomanager_controller.go` and of the
types of `api/v1alpha1/geneziomanager_types.go`.

* Go strings are `String`; `strings.Split` with the one-character separator used by the
  controller is `stringsSplit`.
* A Go function returning `(T, error)` that may also raise a run-time panic returns `Ret T`.
* The cluster API client is a state-passing model (`World`): two keyed object stores, an
  oracle of call failures injected from outside and a chronological log of every store call.
* The process environment (`os.LookupEnv`) and the wall clock are fields of `World`.
-/

set_option linter.dupNamespace false

namespace GenezioOperator

/-! ## api/v1alpha1/geneziomanager_types.go -/

structure GiteaProvider where
  URL : String := ""
  Username : String := ""
  Token : String := ""
  TokenSecretKey : String := ""
  TokenSecretName : String := ""
  Password : String := ""
  PasswordSecretKey : String := ""
  PasswordSecretName : String := ""
  deriving DecidableEq, Repr

structure ContainerRegistryConfig where
  URL : String := ""
  Username : String := ""
  Password : String := ""
  PasswordSecretKey : String := ""
  PasswordSecretName : String := ""
  deriving DecidableEq, Repr

structure GitConfig where
  Provider : String := ""
  DeployementRepoName : String := ""
  Gitea : GiteaProvider := {}
  deriving DecidableEq, Repr

structure ArgoCDConfig where
  URL : String := ""
  Username : String := ""
  Password : String := ""
  PasswordSecretKey : String := ""
  PasswordSecretName : String := ""
  deriving DecidableEq, Repr

/-- GenezioManagerSpec: the desired state. `ContainerPort` is an int32 that is only copied. -/
structure GenezioManagerSpec where
  ArgoCDConfig : ArgoCDConfig := {}
  GitConfig : GitConfig := {}
  ContainerRegistryConfig : ContainerRegistryConfig := {}
  Region : String := ""
  ContainerPort : Int := 0
  ChartRepo : String := ""
  ChartRev : String := ""
  deriving DecidableEq, Repr

/-- The three values of metav1.ConditionStatus. -/
inductive ConditionStatus where
  | ConditionTrue
  | ConditionFalse
  | ConditionUnknown
  deriving DecidableEq, Repr

/-- A metav1.Condition. `CondType` is the Go field `Type`; a `LastTransitionTime` of 0 is the
zero time. -/
structure Condition where
  CondType : String
  Status : ConditionStatus
  Reason : String := ""
  Message : String := ""
  ObservedGeneration : Int := 0
  LastTransitionTime : Nat := 0
  deriving DecidableEq, Repr

structure GenezioManagerStatus where
  Conditions : List Condition := []
  deriving DecidableEq, Repr

/-- GenezioManager: the embedded ObjectMeta is flattened to the fields the controller reads. -/
structure GenezioManager where
  Name : String := ""
  Namespace : String := ""
  UID : String := ""
  Finalizers : List String := []
  DeletionTimestamp : Option Nat := none
  Spec : GenezioManagerSpec := {}
  Status : GenezioManagerStatus := {}
  deriving DecidableEq, Repr

/-! ## Kubernetes objects built by the controller -/

structure NamespacedName where
  Namespace : String
  Name : String
  deriving DecidableEq, Repr

structure OwnerReference where
  APIVersion : String
  Kind : String
  Name : String
  UID : String
  Controller : Option Bool
  BlockOwnerDeletion : Option Bool
  deriving DecidableEq, Repr

structure EnvVar where
  Name : String
  Value : String
  deriving DecidableEq, Repr

structure Capabilities where
  Drop : List String
  deriving DecidableEq, Repr

structure SecurityContext where
  RunAsNonRoot : Option Bool
  RunAsUser : Option Int
  AllowPrivilegeEscalation : Option Bool
  Capabilities : Option Capabilities
  deriving DecidableEq, Repr

structure ContainerPort where
  ContainerPort : Int
  Name : String
  deriving DecidableEq, Repr

structure Container where
  Image : String
  Name : String
  Env : List EnvVar
  ImagePullPolicy : String
  SecurityContext : Option SecurityContext
  Ports : List ContainerPort
  deriving DecidableEq, Repr

structure SeccompProfile where
  ProfileType : String
  deriving DecidableEq, Repr

structure PodSecurityContext where
  RunAsNonRoot : Option Bool
  SeccompProfile : Option SeccompProfile
  deriving DecidableEq, Repr

structure PodSpec where
  SecurityContext : Option PodSecurityContext
  Containers : List Container
  deriving DecidableEq, Repr

/-- A Go `map[string]string` written as the list of its literal's entries. -/
abbrev LabelMap := List (String × String)

structure PodTemplateSpec where
  Labels : LabelMap
  Spec : PodSpec
  deriving DecidableEq, Repr

structure LabelSelector where
  MatchLabels : LabelMap
  deriving DecidableEq, Repr

structure DeploymentSpec where
  Selector : Option LabelSelector
  Template : PodTemplateSpec
  deriving DecidableEq, Repr

structure Deployment where
  Name : String
  Namespace : String
  OwnerReferences : List OwnerReference := []
  Spec : DeploymentSpec
  deriving DecidableEq, Repr

/-! ## Errors, panics and return values -/

/-- A Go `error`: its text and whether `apierrors.IsNotFound` holds of it. -/
structure Error where
  Message : String
  NotFound : Bool := false
  deriving DecidableEq, Repr

/-- A Go run-time panic. -/
inductive Panic where
  | indexOutOfRange (index : Nat) (length : Nat)
  deriving DecidableEq, Repr

/-- What a Go function of result type `(T, error)` does: return a value, return an error, or
raise a run-time panic. -/
inductive Ret (α : Type) where
  | val (a : α)
  | err (e : Error)
  | panicked (p : Panic)
  deriving DecidableEq, Repr

/-- A ctrl.Result; `RequeueAfter` is a time.Duration in nanoseconds. -/
structure Result where
  Requeue : Bool := false
  RequeueAfter : Nat := 0
  deriving DecidableEq, Repr

/-- Go `time.Minute`, in nanoseconds. -/
def timeMinute : Nat := 60 * 1000000000

/-- What one call of Reconcile does: return `(ctrl.Result, error)` or raise a panic. -/
inductive Outcome where
  | returned (res : Result) (err : Option Error)
  | panicked (p : Panic)
  deriving DecidableEq, Repr

/-! ## Library functions used by the controller -/

/-- Splitting of a character list around every occurrence of `sep`. -/
def splitChars (sep : Char) : List Char → List (List Char)
  | [] => [[]]
  | c :: cs =>
    if c = sep then [] :: splitChars sep cs
    else
      match splitChars sep cs with
      | [] => [[c]]
      | h :: t => (c :: h) :: t

/-- Go `strings.Split(s, sep)` for a separator of one character: the pieces of `s` between
the occurrences of `sep`; a string without `sep` gives the one-element list of `s`. -/
def stringsSplit (s : String) (sep : Char) : List String :=
  (splitChars sep s.data).map String.mk

/-- Go `meta.FindStatusCondition`: the first condition of the given type. -/
def findStatusCondition (conditions : List Condition) (conditionType : String) :
    Option Condition :=
  conditions.find? (fun c => c.CondType == conditionType)

/-- The in-place update `meta.SetStatusCondition` makes to an existing condition. -/
def updateCondition (now : Nat) (existing newCondition : Condition) : Condition :=
  let c1 :=
    if existing.Status ≠ newCondition.Status then
      { existing with
        Status := newCondition.Status
        LastTransitionTime :=
          if newCondition.LastTransitionTime ≠ 0 then newCondition.LastTransitionTime
          else now }
    else existing
  { c1 with
    Reason := newCondition.Reason
    Message := newCondition.Message
    ObservedGeneration := newCondition.ObservedGeneration }

/-- Replace the first condition of type `newCondition.CondType` by its update. -/
def replaceCondition (now : Nat) (newCondition : Condition) : List Condition → List Condition
  | [] => []
  | c :: cs =>
    if c.CondType == newCondition.CondType then updateCondition now c newCondition :: cs
    else c :: replaceCondition now newCondition cs

/-- Go `meta.SetStatusCondition` at clock reading `now`: a condition of a new type is appended
(stamped with `now` when it carries no transition time); an existing one is updated in place,
its transition time changing only when its status does. -/
def setStatusCondition (now : Nat) (conditions : List Condition) (newCondition : Condition) :
    List Condition :=
  match findStatusCondition conditions newCondition.CondType with
  | none =>
    conditions ++
      [if newCondition.LastTransitionTime = 0 then
        { newCondition with LastTransitionTime := now }
       else newCondition]
  | some _ => replaceCondition now newCondition conditions

/-- Go `controllerutil.ContainsFinalizer`. -/
def containsFinalizer (o : GenezioManager) (finalizer : String) : Bool :=
  o.Finalizers.contains finalizer

/-- Go `controllerutil.AddFinalizer`: the object after the call and whether it changed. -/
def addFinalizer (o : GenezioManager) (finalizer : String) : GenezioManager × Bool :=
  if o.Finalizers.contains finalizer then (o, false)
  else ({ o with Finalizers := o.Finalizers ++ [finalizer] }, true)

/-- Go `controllerutil.RemoveFinalizer`: the object after the call and whether it changed. -/
def removeFinalizer (o : GenezioManager) (finalizer : String) : GenezioManager × Bool :=
  let kept := o.Finalizers.filter (fun f => f != finalizer)
  ({ o with Finalizers := kept }, o.Finalizers.length != kept.length)

/-- A runtime.Scheme, reduced to what SetControllerReference asks of it: the API version and
kind registered for the GenezioManager type, if any. -/
structure Scheme where
  GenezioManagerKind : Option (String × String)
  deriving DecidableEq, Repr

/-- Go `ctrl.SetControllerReference(owner, dep, scheme)` for a GenezioManager owner: validate
the namespaces, resolve the owner kind in the scheme, refuse an object that has another
controller, and put in the owner reference. -/
def setControllerReference (owner : GenezioManager) (dep : Deployment) (scheme : Scheme) :
    Except Error Deployment :=
  if owner.Namespace ≠ "" ∧ dep.Namespace = "" then
    .error { Message := "cluster-scoped resource must not have a namespace-scoped owner" }
  else if owner.Namespace ≠ "" ∧ owner.Namespace ≠ dep.Namespace then
    .error { Message := "cross-namespace owner references are disallowed" }
  else
    match scheme.GenezioManagerKind with
    | none => .error { Message := "no kind is registered for the type v1alpha1.GenezioManager" }
    | some (apiVersion, kind) =>
      let ref : OwnerReference :=
        { APIVersion := apiVersion, Kind := kind, Name := owner.Name, UID := owner.UID,
          Controller := some true, BlockOwnerDeletion := some true }
      match dep.OwnerReferences.find? (fun o => o.Controller == some true) with
      | some existing =>
        if existing.APIVersion = ref.APIVersion ∧ existing.Kind = ref.Kind ∧
            existing.Name = ref.Name then
          .ok { dep with
                OwnerReferences := dep.OwnerReferences.map
                  (fun o => if o.APIVersion = ref.APIVersion ∧ o.Kind = ref.Kind ∧
                      o.Name = ref.Name then ref else o) }
        else .error { Message := "Object is already owned by another controller" }
      | none => .ok { dep with OwnerReferences := dep.OwnerReferences ++ [ref] }

/-! ## internal/controller/geneziomanager_controller.go: constants and synthesis -/

def typeAvailableGenezioManager : String := "Available"

def typeDegradedGenezioManager : String := "Degraded"

def geneziomanagerFinalizer : String := "finalizer.init.genezio.com"

/-- GenezioManagerReconciler; its client is the `World`, its event recorder is never used. -/
structure GenezioManagerReconciler where
  Scheme : Scheme
  deriving DecidableEq, Repr

/-- The process environment, as `os.LookupEnv` sees it. -/
abbrev Environ := String → Option String

/-- Source `imageForGenezioManager`: the value of GENEZIO_MANAGER_IMAGE, or an error. -/
def imageForGenezioManager (env : Environ) : Except Error String :=
  match env "GENEZIO_MANAGER_IMAGE" with
  | none =>
    .error { Message := "unable to find " ++ "GENEZIO_MANAGER_IMAGE" ++
      " environment variable with the image" }
  | some image => .ok image

/-- The map literal returned by labelsForGenezioManager. -/
def labelMap (name imageTag : String) : LabelMap :=
  [("app.kubernetes.io/name", "GenezioManager"),
   ("app.kubernetes.io/instance", name),
   ("app.kubernetes.io/version", imageTag),
   ("app.kubernetes.io/part-of", "genezio-operator"),
   ("app.kubernetes.io/created-by", "controller-manager")]

/-- Source `labelsForGenezioManager`: when the image is found, the tag is
`strings.Split(image, ":")[1]`, an index expression that panics on a one-element slice. -/
def labelsForGenezioManager (env : Environ) (name : String) : Except Panic LabelMap :=
  match imageForGenezioManager env with
  | .ok image =>
    let parts := stringsSplit image ':'
    match parts[1]? with
    | some imageTag => .ok (labelMap name imageTag)
    | none => .error (Panic.indexOutOfRange 1 parts.length)
  | .error _ => .ok (labelMap name "")

/-- The four git values of the provider switch of deploymentForGenezioManager, in the order
gitUser, gitURL, gitPassword, gitToken. -/
def gitValues (spec : GenezioManagerSpec) : String × String × String × String :=
  if spec.GitConfig.Provider = "gitea" then
    (spec.GitConfig.Gitea.Username, spec.GitConfig.Gitea.URL,
     spec.GitConfig.Gitea.Password, spec.GitConfig.Gitea.Token)
  else ("", "", "", "")

/-- The Deployment literal of deploymentForGenezioManager, before the owner reference. -/
def deploymentLiteral (geneziomanager : GenezioManager) (ls : LabelMap) (image : String) :
    Deployment :=
  let git := gitValues geneziomanager.Spec
  { Name := geneziomanager.Name
    Namespace := geneziomanager.Namespace
    Spec :=
      { Selector := some { MatchLabels := ls }
        Template :=
          { Labels := ls
            Spec :=
              { SecurityContext := some
                  { RunAsNonRoot := some true
                    SeccompProfile := some { ProfileType := "RuntimeDefault" } }
                Containers :=
                  [{ Image := image
                     Name := "genezio-manager"
                     Env :=
                       [{ Name := "REGION", Value := geneziomanager.Spec.Region },
                        { Name := "DOMAIN", Value := "local" },
                        { Name := "CHART_REPO", Value := geneziomanager.Spec.ChartRepo },
                        { Name := "CHART_TARGET_REVISION",
                          Value := geneziomanager.Spec.ChartRev },
                        { Name := "DEPLOYMENT_REPO_NAME",
                          Value := geneziomanager.Spec.GitConfig.DeployementRepoName },
                        { Name := "ARGOCD_URL", Value := geneziomanager.Spec.ArgoCDConfig.URL },
                        { Name := "ARGOCD_TOKEN",
                          Value := geneziomanager.Spec.ArgoCDConfig.Password },
                        { Name := "REGISTRY_URL",
                          Value := geneziomanager.Spec.ContainerRegistryConfig.URL },
                        { Name := "REGISTRY_USER",
                          Value := geneziomanager.Spec.ContainerRegistryConfig.Username },
                        { Name := "REGISTRY_PASSWORD",
                          Value := geneziomanager.Spec.ContainerRegistryConfig.Password },
                        { Name := "GIT_USER", Value := git.1 },
                        { Name := "GIT_URL", Value := git.2.1 },
                        { Name := "GIT_PASSWORD", Value := git.2.2.1 },
                        { Name := "GIT_TOKEN", Value := git.2.2.2 }]
                     ImagePullPolicy := "Always"
                     SecurityContext := some
                       { RunAsNonRoot := some true
                         RunAsUser := some 1001
                         AllowPrivilegeEscalation := some false
                         Capabilities := some { Drop := ["ALL"] } }
                     Ports :=
                       [{ ContainerPort := geneziomanager.Spec.ContainerPort
                          Name := "genezio-manager" }] }] } } } }

/-- Source `deploymentForGenezioManager`: labels (which may panic), image (which may be
missing), the provider switch, the Deployment literal, then the owner reference. -/
def deploymentForGenezioManager (r : GenezioManagerReconciler) (env : Environ)
    (geneziomanager : GenezioManager) : Ret Deployment :=
  match labelsForGenezioManager env geneziomanager.Name with
  | .error p => .panicked p
  | .ok ls =>
    match imageForGenezioManager env with
    | .error err => .err err
    | .ok image =>
      match setControllerReference geneziomanager
          (deploymentLiteral geneziomanager ls image) r.Scheme with
      | .error err => .err err
      | .ok dep => .val dep

/-! ## The cluster API client -/

/-- A call on the cluster API client made by Reconcile. -/
inductive Call where
  | get (key : NamespacedName)
  | statusUpdate (obj : GenezioManager)
  | update (obj : GenezioManager)
  | getDeployment (key : NamespacedName)
  | create (dep : Deployment)
  deriving DecidableEq, Repr

/-- The calls that write to the store. -/
def Call.isWrite : Call → Bool
  | .statusUpdate _ => true
  | .update _ => true
  | .create _ => true
  | _ => false

def Call.isCreate : Call → Bool
  | .create _ => true
  | _ => false

/-- The world a pass runs in. `managers` and `deployments` are the object store, keyed by
namespace and name. `faults n c` is the error, if any, that the environment makes the call `c`
fail with when it is the `n`-th store call on the log (a conflict, a refused write, an
outage). `calls` is the log of the store calls made so far with the error each returned.
`environ` is the process environment and `now` the reading of the wall clock, held fixed.
The store has a single writer, removes nothing by itself and applies no admission rule: a write
that an API server would refuse is a failure injected through `faults`. -/
structure World where
  managers : NamespacedName → Option GenezioManager
  deployments : NamespacedName → Option Deployment
  faults : Nat → Call → Option Error
  calls : List (Call × Option Error)
  environ : Environ
  now : Nat

/-- The error injected into the next store call, when it is `c`. -/
def World.fault (w : World) (c : Call) : Option Error :=
  w.faults w.calls.length c

/-- Append a call and the error it returned to the log. -/
def World.record (w : World) (c : Call) (o : Option Error) : World :=
  { w with calls := w.calls ++ [(c, o)] }

/-- Store `obj` under its namespace and name. -/
def World.put (w : World) (obj : GenezioManager) : World :=
  { w with managers := Function.update w.managers ⟨obj.Namespace, obj.Name⟩ (some obj) }

/-- The error of a read that finds nothing; `apierrors.IsNotFound` holds of it. -/
def notFoundError (key : NamespacedName) : Error :=
  { Message := key.Namespace ++ "/" ++ key.Name ++ " not found", NotFound := true }

/-- Go `client.IgnoreNotFound`. -/
def ignoreNotFound (err : Error) : Option Error :=
  if err.NotFound then none else some err

/-- Store call `r.Get` for the GenezioManager stored under `key`. -/
def clientGet (w : World) (key : NamespacedName) : Except Error GenezioManager × World :=
  match w.fault (.get key) with
  | some e => (.error e, w.record (.get key) (some e))
  | none =>
    match w.managers key with
    | none => (.error (notFoundError key), w.record (.get key) (some (notFoundError key)))
    | some obj => (.ok obj, w.record (.get key) none)

/-- Store call `r.Status().Update`: the status of the stored object is replaced by the status
of `obj` (nothing else of `obj` is taken); the call returns the object as now stored. -/
def clientStatusUpdate (w : World) (obj : GenezioManager) :
    Except Error GenezioManager × World :=
  match w.fault (.statusUpdate obj) with
  | some e => (.error e, w.record (.statusUpdate obj) (some e))
  | none =>
    match w.managers ⟨obj.Namespace, obj.Name⟩ with
    | none =>
      (.error (notFoundError ⟨obj.Namespace, obj.Name⟩),
       w.record (.statusUpdate obj) (some (notFoundError ⟨obj.Namespace, obj.Name⟩)))
    | some stored =>
      (.ok { stored with Status := obj.Status },
       (w.put { stored with Status := obj.Status }).record (.statusUpdate obj) none)

/-- Store call `r.Update`: the stored object is replaced by `obj`, except for its status, which
belongs to the status subresource; the call returns the object as now stored. -/
def clientUpdate (w : World) (obj : GenezioManager) : Except Error GenezioManager × World :=
  match w.fault (.update obj) with
  | some e => (.error e, w.record (.update obj) (some e))
  | none =>
    match w.managers ⟨obj.Namespace, obj.Name⟩ with
    | none =>
      (.error (notFoundError ⟨obj.Namespace, obj.Name⟩),
       w.record (.update obj) (some (notFoundError ⟨obj.Namespace, obj.Name⟩)))
    | some stored =>
      (.ok { obj with Status := stored.Status },
       (w.put { obj with Status := stored.Status }).record (.update obj) none)

/-- Store call `r.Get` for the Deployment stored under `key`. -/
def clientGetDeployment (w : World) (key : NamespacedName) : Except Error Deployment × World :=
  match w.fault (.getDeployment key) with
  | some e => (.error e, w.record (.getDeployment key) (some e))
  | none =>
    match w.deployments key with
    | none =>
      (.error (notFoundError key), w.record (.getDeployment key) (some (notFoundError key)))
    | some dep => (.ok dep, w.record (.getDeployment key) none)

/-- Store call `r.Create` for a Deployment: refused when one is stored under its key. -/
def clientCreate (w : World) (dep : Deployment) : Option Error × World :=
  match w.fault (.create dep) with
  | some e => (some e, w.record (.create dep) (some e))
  | none =>
    match w.deployments ⟨dep.Namespace, dep.Name⟩ with
    | some _ =>
      (some { Message := dep.Namespace ++ "/" ++ dep.Name ++ " already exists" },
       w.record (.create dep)
         (some { Message := dep.Namespace ++ "/" ++ dep.Name ++ " already exists" }))
    | none =>
      (none,
       { w with
         deployments := Function.update w.deployments ⟨dep.Namespace, dep.Name⟩ (some dep)
       }.record (.create dep) none)

/-! ## internal/controller/geneziomanager_controller.go: Reconcile

Reconcile is one Go function with early returns. It is cut at the three places where control
falls through from one block to the next; each piece takes the in-memory object and the world
as they are at that place. -/

/-- The object with `meta.SetStatusCondition` applied to its status conditions. -/
def withCondition (now : Nat) (geneziomanager : GenezioManager) (c : Condition) :
    GenezioManager :=
  { geneziomanager with
    Status := { Conditions := setStatusCondition now geneziomanager.Status.Conditions c } }

/-- The condition literal of source lines 87-92. -/
def startingCondition : Condition :=
  { CondType := typeAvailableGenezioManager
    Status := .ConditionUnknown
    Reason := "Reconciling"
    Message := "Starting reconciliation" }

/-- The condition literal of source lines 134-136. -/
def finalizingCondition (name : String) : Condition :=
  { CondType := typeDegradedGenezioManager
    Status := .ConditionUnknown
    Reason := "Finalizing"
    Message := "Performing finalizer operations for the custom resource: " ++ name ++ " " }

/-- The condition literal of source lines 160-162. -/
def finalizedCondition (name : String) : Condition :=
  { CondType := typeDegradedGenezioManager
    Status := .ConditionTrue
    Reason := "Finalizing"
    Message := "Finalizer operations for custom resource " ++ name ++
      " name were successfully accomplished" }

/-- The condition literal of source lines 193-195; `err` is the synthesis error. -/
def failedCondition (name : String) (err : Error) : Condition :=
  { CondType := typeAvailableGenezioManager
    Status := .ConditionFalse
    Reason := "Reconciling"
    Message := "Failed to create Deployment for the custom resource (" ++ name ++ "): (" ++
      err.Message ++ ")" }

/-- The condition literal of source lines 224-226. -/
def createdCondition (name : String) : Condition :=
  { CondType := typeAvailableGenezioManager
    Status := .ConditionTrue
    Reason := "Reconciling"
    Message := "Deployment for custom resource (" ++ name ++ ") created successfully" }

/-- Reconcile, source lines 183-233: get the Deployment; when it is not found, synthesize and
create it; when it is there, record Available=True. -/
def reconcileDeployment (r : GenezioManagerReconciler) (geneziomanager : GenezioManager)
    (w : World) : Outcome × World :=
  match clientGetDeployment w ⟨geneziomanager.Namespace, geneziomanager.Name⟩ with
  | (.error err, w1) =>
    if err.NotFound then
      match deploymentForGenezioManager r w1.environ geneziomanager with
      | .panicked p => (.panicked p, w1)
      | .err derr =>
        match clientStatusUpdate w1 (withCondition w1.now geneziomanager
            (failedCondition geneziomanager.Name derr)) with
        | (.error uerr, w2) => (.returned {} (some uerr), w2)
        | (.ok _, w2) => (.returned {} (some derr), w2)
      | .val dep =>
        match clientCreate w1 dep with
        | (some cerr, w2) => (.returned {} (some cerr), w2)
        | (none, w2) => (.returned { RequeueAfter := timeMinute } none, w2)
    else (.returned {} (some err), w1)
  | (.ok _, w1) =>
    match clientStatusUpdate w1 (withCondition w1.now geneziomanager
        (createdCondition geneziomanager.Name)) with
    | (.error uerr, w2) => (.returned {} (some uerr), w2)
    | (.ok _, w2) => (.returned {} none, w2)

/-- Reconcile, source lines 129-181: the object is marked to be deleted. -/
def reconcileDelete (req : NamespacedName) (geneziomanager : GenezioManager) (w : World) :
    Outcome × World :=
  if containsFinalizer geneziomanager geneziomanagerFinalizer then
    match clientStatusUpdate w (withCondition w.now geneziomanager
        (finalizingCondition geneziomanager.Name)) with
    | (.error err, w1) => (.returned {} (some err), w1)
    | (.ok _, w1) =>
      match clientGet w1 req with
      | (.error err, w2) => (.returned {} (some err), w2)
      | (.ok refetched, w2) =>
        match clientStatusUpdate w2 (withCondition w2.now refetched
            (finalizedCondition refetched.Name)) with
        | (.error err, w3) => (.returned {} (some err), w3)
        | (.ok updated, w3) =>
          match removeFinalizer updated geneziomanagerFinalizer with
          | (_, false) => (.returned { Requeue := true } none, w3)
          | (stripped, true) =>
            match clientUpdate w3 stripped with
            | (.error err, w4) => (.returned {} (some err), w4)
            | (.ok _, w4) => (.returned {} none, w4)
  else (.returned {} none, w)

/-- Reconcile, source lines 125-233: the deletion branch or the Deployment branch. -/
def reconcileMarked (r : GenezioManagerReconciler) (req : NamespacedName)
    (geneziomanager : GenezioManager) (w : World) : Outcome × World :=
  if geneziomanager.DeletionTimestamp.isSome then reconcileDelete req geneziomanager w
  else reconcileDeployment r geneziomanager w

/-- Reconcile, source lines 109-233: add the finalizer when the object has none, then go on. -/
def reconcileFinalizer (r : GenezioManagerReconciler) (req : NamespacedName)
    (geneziomanager : GenezioManager) (w : World) : Outcome × World :=
  if !containsFinalizer geneziomanager geneziomanagerFinalizer then
    match addFinalizer geneziomanager geneziomanagerFinalizer with
    | (_, false) => (.returned { Requeue := true } none, w)
    | (added, true) =>
      match clientUpdate w added with
      | (.error err, w1) => (.returned {} (some err), w1)
      | (.ok updated, w1) => reconcileMarked r req updated w1
  else reconcileMarked r req geneziomanager w

/-- Source `Reconcile`: fetch the object; when it has no status condition, record
Available=Unknown and fetch it again; then fall through to the finalizer block. -/
def Reconcile (r : GenezioManagerReconciler) (req : NamespacedName) (w : World) :
    Outcome × World :=
  match clientGet w req with
  | (.error err, w1) => (.returned {} (ignoreNotFound err), w1)
  | (.ok geneziomanager, w1) =>
    if geneziomanager.Status.Conditions.length = 0 then
      match clientStatusUpdate w1 (withCondition w1.now geneziomanager startingCondition) with
      | (.error err, w2) => (.returned {} (some err), w2)
      | (.ok _, w2) =>
        match clientGet w2 req with
        | (.error err, w3) => (.returned {} (some err), w3)
        | (.ok refetched, w3) => reconcileFinalizer r req refetched w3
    else reconcileFinalizer r req geneziomanager w1

/-! ## Reading a pass -/

/-- The key a resource is stored under. -/
def keyOf (geneziomanager : GenezioManager) : NamespacedName :=
  ⟨geneziomanager.Namespace, geneziomanager.Name⟩

/-- The store writes on a log, in order. -/
def writesOf (log : List (Call × Option Error)) : List (Call × Option Error) :=
  log.filter (fun c => c.1.isWrite)

/-- The value of the first entry called `name` in an environment list. -/
def envValue (env : List EnvVar) (name : String) : Option String :=
  (env.find? (fun e => e.Name == name)).map (fun e => e.Value)

/-- The value a label map gives to `key`. -/
def labelValue (ls : LabelMap) (key : String) : Option String :=
  (ls.find? (fun e => e.1 == key)).map (fun e => e.2)

/-- No store call is made to fail from outside: every call is answered by the store. -/
def World.noFaults (w : World) : Prop :=
  ∀ n c, w.faults n c = none

/-- The first condition of type `t` of the object has status `s` and reason `reason`. -/
def hasCondition (o : GenezioManager) (t : String) (s : ConditionStatus) (reason : String) :
    Prop :=
  ∃ c, findStatusCondition o.Status.Conditions t = some c ∧ c.Status = s ∧ c.Reason = reason

/-- Only Create calls may be made to fail from outside; every other call is answered by the
store. -/
def World.quiet (w : World) : Prop :=
  ∀ n c, c.isCreate = false → w.faults n c = none

/-- What a store call is about: for a status update the type, status and reason of every
condition it carries, for a resource update the finalizer list it carries, for a Create the
namespace and name of the Deployment. -/
inductive CallDigest where
  | get
  | statusUpdate (conditions : List (String × ConditionStatus × String))
  | update (finalizers : List String)
  | getDeployment
  | create (ns name : String)
  deriving DecidableEq, Repr

def Call.digest : Call → CallDigest
  | .get _ => .get
  | .statusUpdate obj =>
    .statusUpdate (obj.Status.Conditions.map (fun c => (c.CondType, c.Status, c.Reason)))
  | .update obj => .update obj.Finalizers
  | .getDeployment _ => .getDeployment
  | .create dep => .create dep.Namespace dep.Name

/-- The digest of every call on a log, with the text of the error it returned. -/
def digestOf (log : List (Call × Option Error)) : List (CallDigest × Option String) :=
  log.map (fun c => (c.1.digest, c.2.map (fun e => e.Message)))

/-- Whether an outcome is the requeue-now directive `Result{Requeue: true}`. -/
def Outcome.requeueNow : Outcome → Bool
  | .returned res _ => res.Requeue
  | .panicked _ => false

/-- The pass is at `(w1, g)` after having started at `(w, gm)` and made only answered calls on
the resource: `w1` is still quiet, stores `g` under the key of `gm`, and `g` is `gm` up to its
status and finalizers; Deployments, environment, clock and failures are as in `w`. -/
structure Resumes (w : World) (gm : GenezioManager) (w1 : World) (g : GenezioManager) :
    Prop where
  quiet : w1.quiet
  stored : w1.managers (keyOf gm) = some g
  name : g.Name = gm.Name
  ns : g.Namespace = gm.Namespace
  uid : g.UID = gm.UID
  spec : g.Spec = gm.Spec
  deletion : g.DeletionTimestamp = gm.DeletionTimestamp
  deployments : w1.deployments = w.deployments
  environ : w1.environ = w.environ
  now : w1.now = w.now
  faults : w1.faults = w.faults

/-- On a log, every failed write is the last entry, and the outcome returns its error with an
empty result. -/
def abortsAtFailedWrite : List (Call × Option Error) → Outcome → Prop
  | [], _ => True
  | (_, none) :: rest, o => abortsAtFailedWrite rest o
  | (c, some e) :: rest, o =>
    if c.isWrite = true then rest = [] ∧ o = .returned {} (some e)
    else abortsAtFailedWrite rest o

/-- The calls a piece of a pass appends to the log `base` satisfy `abortsAtFailedWrite`. -/
def AbortsFrom (base : List (Call × Option Error)) (res : Outcome × World) : Prop :=
  ∃ ext, res.2.calls = base ++ ext ∧ abortsAtFailedWrite ext res.1

/-- When one of the calls a piece of a pass appends to the log `base` is a failed status
update, the store still holds, under `key`, a resource that carries the finalizer token. -/
def KeepsToken (key : NamespacedName) (base : List (Call × Option Error))
    (res : Outcome × World) : Prop :=
  ∃ ext, res.2.calls = base ++ ext ∧
    ((∃ o e, (Call.statusUpdate o, some e) ∈ ext) →
      ∃ stored, res.2.managers key = some stored ∧
        containsFinalizer stored geneziomanagerFinalizer = true)

/-! ## Concrete inputs -/

/-- A reconciler whose scheme has the GenezioManager kind registered. -/
def exampleReconciler : GenezioManagerReconciler :=
  { Scheme := { GenezioManagerKind := some ("init.genezio.com/v1alpha1", "GenezioManager") } }

/-- A reconciler whose scheme has no kind registered for GenezioManager. -/
def bareReconciler : GenezioManagerReconciler :=
  { Scheme := { GenezioManagerKind := none } }

/-- A process environment in which GENEZIO_MANAGER_IMAGE is `image` (unset for `none`). -/
def exampleEnviron (image : Option String) : Environ :=
  fun k => if k = "GENEZIO_MANAGER_IMAGE" then image else none

/-- A resource whose git provider is not one the controller knows, with a filled Gitea block. -/
def unknownProviderManager : GenezioManager :=
  { Name := "manager", Namespace := "genezio", UID := "uid-1"
    Spec :=
      { Region := "eu-central-1"
        GitConfig :=
          { Provider := "unknown"
            Gitea := { URL := "https://git.local", Username := "bot", Password := "pw",
                       Token := "tok" } } } }

/-- The Deployment synthesized for `unknownProviderManager` from the image
genezio/manager:1.2 by `exampleReconciler`. -/
def unknownProviderDeployment : Deployment :=
  { deploymentLiteral unknownProviderManager (labelMap "manager" "1.2") "genezio/manager:1.2" with
    OwnerReferences :=
      [{ APIVersion := "init.genezio.com/v1alpha1", Kind := "GenezioManager", Name := "manager",
         UID := "uid-1", Controller := some true, BlockOwnerDeletion := some true }] }

/-- The environment list of the container literal of deploymentForGenezioManager. -/
def expectedEnv (gm : GenezioManager) : List EnvVar :=
  [⟨"REGION", gm.Spec.Region⟩,
   ⟨"DOMAIN", "local"⟩,
   ⟨"CHART_REPO", gm.Spec.ChartRepo⟩,
   ⟨"CHART_TARGET_REVISION", gm.Spec.ChartRev⟩,
   ⟨"DEPLOYMENT_REPO_NAME", gm.Spec.GitConfig.DeployementRepoName⟩,
   ⟨"ARGOCD_URL", gm.Spec.ArgoCDConfig.URL⟩,
   ⟨"ARGOCD_TOKEN", gm.Spec.ArgoCDConfig.Password⟩,
   ⟨"REGISTRY_URL", gm.Spec.ContainerRegistryConfig.URL⟩,
   ⟨"REGISTRY_USER", gm.Spec.ContainerRegistryConfig.Username⟩,
   ⟨"REGISTRY_PASSWORD", gm.Spec.ContainerRegistryConfig.Password⟩,
   ⟨"GIT_USER", (gitValues gm.Spec).1⟩,
   ⟨"GIT_URL", (gitValues gm.Spec).2.1⟩,
   ⟨"GIT_PASSWORD", (gitValues gm.Spec).2.2.1⟩,
   ⟨"GIT_TOKEN", (gitValues gm.Spec).2.2.2⟩]

/-- A world with an empty log and no injected failure, whose store holds `gm` under its key
and, when `dep` is given, a Deployment under the same key; the image variable is `image`. -/
def exampleWorld (gm : GenezioManager) (dep : Option Deployment) (image : Option String) :
    World :=
  { managers := fun k => if k = keyOf gm then some gm else none
    deployments := fun k => if k = keyOf gm then dep else none
    faults := fun _ _ => none
    calls := []
    environ := exampleEnviron image
    now := 100 }

/-- The world `w` in which the store call number `n` (counted from 0) fails with `e`. -/
def failingAt (w : World) (n : Nat) (e : Error) : World :=
  { w with faults := fun k c => if k = n then some e else w.faults k c }

/-- The error of a refused write. -/
def conflictError : Error :=
  { Message := "the object has been modified" }

/-- A condition Available=True as the Deployment branch records it, set at time 50. -/
def availableTrue : Condition :=
  { CondType := "Available", Status := .ConditionTrue, Reason := "Reconciling",
    Message := "Deployment for custom resource (manager) created successfully",
    LastTransitionTime := 50 }

/-- A resource in the Active steady state: finalizer present, Available=True recorded. -/
def activeManager : GenezioManager :=
  { Name := "manager", Namespace := "genezio", UID := "uid-1"
    Finalizers := [geneziomanagerFinalizer]
    Spec := { Region := "eu-central-1", GitConfig := { Provider := "gitea" } }
    Status := { Conditions := [availableTrue] } }

/-- A new resource: no status condition, no finalizer, not being deleted. -/
def freshManager : GenezioManager :=
  { activeManager with Finalizers := [], Status := {} }

/-- A resource being deleted that holds the finalizer token and has status conditions. -/
def deletingManager : GenezioManager :=
  { activeManager with DeletionTimestamp := some 90 }

/-- A resource being deleted that holds the finalizer token and has no status condition. -/
def deletingUninitializedManager : GenezioManager :=
  { activeManager with DeletionTimestamp := some 90, Status := {} }

/-- A resource being deleted that another controller's finalizer still holds in the store and
that does not hold the token of this controller; it has conditions. -/
def foregroundManager : GenezioManager :=
  { activeManager with DeletionTimestamp := some 90, Finalizers := ["foregroundDeletion"] }

/-- The error with which an API server refuses a finalizer added under a deletion timestamp. -/
def forbiddenError : Error :=
  { Message := "Forbidden: no new finalizers can be added if the object is being deleted" }

/-- The Deployment synthesized for `activeManager` from the image genezio/manager:1.2. -/
def activeDeployment : Deployment :=
  { deploymentLiteral activeManager (labelMap "manager" "1.2") "genezio/manager:1.2" with
    OwnerReferences :=
      [{ APIVersion := "init.genezio.com/v1alpha1", Kind := "GenezioManager", Name := "manager",
         UID := "uid-1", Controller := some true, BlockOwnerDeletion := some true }] }

/-- The key of a resource that no example world stores. -/
def absentKey : NamespacedName :=
  ⟨"genezio", "gone"⟩

/-- The error of a store that cannot be reached; it is not a not-found error. -/
def outageError : Error :=
  { Message := "connection refused" }

/-! ## Theorems -/

/-- A successful SetControllerReference changes the owner references only. -/
theorem setControllerReference_ok (owner : GenezioManager) (dep dep2 : Deployment) (s : Scheme)
    (h : setControllerReference owner dep s = .ok dep2) :
    dep2.Spec = dep.Spec ∧ dep2.Name = dep.Name ∧ dep2.Namespace = dep.Namespace := by
  unfold setControllerReference at h
  split at h
  · cases h
  · split at h
    · cases h
    · split at h
      · cases h
      · simp only at h
        split at h
        · split at h
          · cases h; exact ⟨rfl, rfl, rfl⟩
          · cases h
        · cases h; exact ⟨rfl, rfl, rfl⟩

/-- A successful synthesis returns the Deployment literal up to its owner references. -/
theorem deploymentForGenezioManager_val (r : GenezioManagerReconciler) (env : Environ)
    (gm : GenezioManager) (dep : Deployment)
    (h : deploymentForGenezioManager r env gm = .val dep) :
    ∃ ls image, imageForGenezioManager env = .ok image ∧
      dep.Spec = (deploymentLiteral gm ls image).Spec ∧
      dep.Name = gm.Name ∧ dep.Namespace = gm.Namespace := by
  unfold deploymentForGenezioManager at h
  split at h
  · cases h
  · rename_i ls _
    split at h
    · cases h
    · rename_i image himage
      split at h
      · cases h
      · rename_i hs
        cases h
        obtain ⟨h1, h2, h3⟩ := setControllerReference_ok _ _ _ _ hs
        exact ⟨ls, image, himage, h1, h2, h3⟩

/-- With the image variable unset, synthesis returns the error of imageForGenezioManager. -/
theorem deploymentForGenezioManager_err_of_unset (r : GenezioManagerReconciler) (env : Environ)
    (gm : GenezioManager) (h : env "GENEZIO_MANAGER_IMAGE" = none) :
    deploymentForGenezioManager r env gm =
      .err { Message := "unable to find GENEZIO_MANAGER_IMAGE environment variable with the image" } := by
  simp [deploymentForGenezioManager, labelsForGenezioManager, imageForGenezioManager, h]

/-- The split of a character list is never empty. -/
theorem splitChars_ne_nil (sep : Char) (l : List Char) : splitChars sep l ≠ [] := by
  induction l with
  | nil => simp [splitChars]
  | cons c cs ih =>
    unfold splitChars
    split
    · simp
    · split <;> simp

/-- A character list that contains the separator splits into at least two pieces. -/
theorem splitChars_length_of_mem (sep : Char) (l : List Char) (h : sep ∈ l) :
    2 ≤ (splitChars sep l).length := by
  induction l with
  | nil => simp at h
  | cons c cs ih =>
    unfold splitChars
    by_cases hc : c = sep
    · have := splitChars_ne_nil sep cs
      have h1 : 1 ≤ (splitChars sep cs).length := by
        cases hsp : splitChars sep cs with
        | nil => exact absurd hsp this
        | cons a b => simp
      simp [hc]
      omega
    · have hmem : sep ∈ cs := by
        rcases List.mem_cons.mp h with h1 | h1
        · exact absurd h1.symm hc
        · exact h1
      have := ih hmem
      simp only [hc, if_false]
      cases hsp : splitChars sep cs with
      | nil => rw [hsp] at this; simp at this
      | cons a b => rw [hsp] at this; simpa using this

/-- A character list without the separator splits into one piece: itself. -/
theorem splitChars_of_not_mem (sep : Char) (l : List Char) (h : sep ∉ l) :
    splitChars sep l = [l] := by
  induction l with
  | nil => simp [splitChars]
  | cons c cs ih =>
    have hc : c ≠ sep := fun e => h (by simp [e])
    have hcs : sep ∉ cs := fun e => h (by simp [e])
    simp [splitChars, hc, ih hcs]

/-- A successful synthesis has one container, with the environment list of the literal. -/
theorem deploymentForGenezioManager_env (r : GenezioManagerReconciler) (env : Environ)
    (gm : GenezioManager) (dep : Deployment)
    (h : deploymentForGenezioManager r env gm = .val dep) :
    ∃ c, dep.Spec.Template.Spec.Containers = [c] ∧ c.Env = expectedEnv gm := by
  obtain ⟨ls, image, _, hspec, _, _⟩ := deploymentForGenezioManager_val r env gm dep h
  rw [hspec]
  exact ⟨_, rfl, rfl⟩

/-- A successful synthesis found the image variable set. -/
theorem deploymentForGenezioManager_image (r : GenezioManagerReconciler) (env : Environ)
    (gm : GenezioManager) (dep : Deployment)
    (h : deploymentForGenezioManager r env gm = .val dep) :
    ∃ image, env "GENEZIO_MANAGER_IMAGE" = some image := by
  obtain ⟨ls, image, himage, _⟩ := deploymentForGenezioManager_val r env gm dep h
  unfold imageForGenezioManager at himage
  split at himage
  · cases himage
  · rename_i img hi
    exact ⟨img, hi⟩

/-- An image reference that contains ':' gives a label set: no panic. -/
theorem labelsForGenezioManager_of_tag (env : Environ) (name image : String)
    (himg : env "GENEZIO_MANAGER_IMAGE" = some image) (htag : ':' ∈ image.data) :
    ∃ tag, (stringsSplit image ':')[1]? = some tag ∧
      labelsForGenezioManager env name = .ok (labelMap name tag) := by
  have h2 := splitChars_length_of_mem ':' image.data htag
  have hlen : 1 < (stringsSplit image ':').length := by
    simp [stringsSplit]; omega
  refine ⟨(stringsSplit image ':')[1], ?_, ?_⟩
  · simp [List.getElem?_eq_getElem hlen]
  · simp [labelsForGenezioManager, imageForGenezioManager, himg, List.getElem?_eq_getElem hlen]

/-- An image reference without ':' makes labelsForGenezioManager panic, whatever the name. -/
theorem labelsForGenezioManager_of_no_tag (env : Environ) (name image : String)
    (himg : env "GENEZIO_MANAGER_IMAGE" = some image) (htag : ':' ∉ image.data) :
    labelsForGenezioManager env name = .error (Panic.indexOutOfRange 1 1) := by
  simp [labelsForGenezioManager, imageForGenezioManager, himg, stringsSplit,
    splitChars_of_not_mem ':' image.data htag]

/-- The instance and version entries of the label map literal. -/
theorem labelMap_values (name imageTag : String) :
    labelValue (labelMap name imageTag) "app.kubernetes.io/instance" = some name ∧
    labelValue (labelMap name imageTag) "app.kubernetes.io/version" = some imageTag := by
  constructor <;> simp [labelValue, labelMap]

/-- Synthesis succeeds when the image reference contains ':' and the scheme has the kind. -/
theorem deploymentForGenezioManager_ok (r : GenezioManagerReconciler) (env : Environ)
    (gm : GenezioManager) (image : String)
    (himg : env "GENEZIO_MANAGER_IMAGE" = some image) (htag : ':' ∈ image.data)
    (hkind : r.Scheme.GenezioManagerKind.isSome = true) :
    ∃ dep, deploymentForGenezioManager r env gm = .val dep := by
  obtain ⟨tag, _, hl⟩ := labelsForGenezioManager_of_tag env gm.Name image himg htag
  obtain ⟨k, hk⟩ := Option.isSome_iff_exists.mp hkind
  obtain ⟨k1, k2⟩ := k
  simp [deploymentForGenezioManager, hl, imageForGenezioManager, himg, setControllerReference, hk,
    deploymentLiteral]

/-! ### Conditions, finalizers and store calls -/

theorem find_replaceCondition (now : Nat) (nc : Condition) (cs : List Condition) (c0 : Condition)
    (h : findStatusCondition cs nc.CondType = some c0) :
    ∃ c, findStatusCondition (replaceCondition now nc cs) nc.CondType = some c ∧
      c.Status = nc.Status ∧ c.Reason = nc.Reason ∧ c.Message = nc.Message := by
  induction cs with
  | nil => simp [findStatusCondition] at h
  | cons a as ih =>
    unfold replaceCondition
    by_cases ha : (a.CondType == nc.CondType) = true
    · simp only [ha, if_true]
      refine ⟨updateCondition now a nc, ?_, ?_, rfl, rfl⟩
      · have : (updateCondition now a nc).CondType = a.CondType := by
          unfold updateCondition; simp only; split <;> rfl
        simp [findStatusCondition, List.find?, this, ha]
      · unfold updateCondition; simp only; split
        · rfl
        · rename_i hs; simp only [ne_eq, not_not] at hs; exact hs
    · simp only [ha]
      have h2 : findStatusCondition as nc.CondType = some c0 := by
        simpa [findStatusCondition, List.find?, ha] using h
      obtain ⟨c, hc, rest⟩ := ih h2
      refine ⟨c, ?_, rest⟩
      simpa [findStatusCondition, List.find?, ha] using hc

theorem find_setStatusCondition (now : Nat) (nc : Condition) (cs : List Condition) :
    ∃ c, findStatusCondition (setStatusCondition now cs nc) nc.CondType = some c ∧
      c.Status = nc.Status ∧ c.Reason = nc.Reason ∧ c.Message = nc.Message := by
  unfold setStatusCondition
  split
  · rename_i hnone
    refine ⟨if nc.LastTransitionTime = 0 then { nc with LastTransitionTime := now } else nc,
      ?_, ?_, ?_, ?_⟩
    · unfold findStatusCondition at *
      rw [List.find?_append, hnone]
      have : (if nc.LastTransitionTime = 0 then { nc with LastTransitionTime := now }
          else nc).CondType = nc.CondType := by split <;> rfl
      simp [List.find?, this]
    · split <;> rfl
    · split <;> rfl
    · split <;> rfl
  · rename_i c0 hsome
    exact find_replaceCondition now nc cs c0 hsome

theorem hasCondition_withCondition (now : Nat) (gm : GenezioManager) (nc : Condition) :
    hasCondition (withCondition now gm nc) nc.CondType nc.Status nc.Reason := by
  obtain ⟨c, h1, h2, h3, _⟩ := find_setStatusCondition now nc gm.Status.Conditions
  exact ⟨c, h1, h2, h3⟩


@[simp]
theorem record_calls (w : World) (c : Call) (o : Option Error) :
    (w.record c o).calls = w.calls ++ [(c, o)] := rfl
@[simp]
theorem record_managers (w : World) (c : Call) (o : Option Error) :
    (w.record c o).managers = w.managers := rfl
@[simp]
theorem record_deployments (w : World) (c : Call) (o : Option Error) :
    (w.record c o).deployments = w.deployments := rfl
@[simp]
theorem record_faults (w : World) (c : Call) (o : Option Error) :
    (w.record c o).faults = w.faults := rfl
@[simp]
theorem record_environ (w : World) (c : Call) (o : Option Error) :
    (w.record c o).environ = w.environ := rfl
@[simp]
theorem record_now (w : World) (c : Call) (o : Option Error) :
    (w.record c o).now = w.now := rfl

@[simp]
theorem withCondition_Name (now : Nat) (gm : GenezioManager) (c : Condition) :
    (withCondition now gm c).Name = gm.Name := rfl
@[simp]
theorem withCondition_Namespace (now : Nat) (gm : GenezioManager) (c : Condition) :
    (withCondition now gm c).Namespace = gm.Namespace := rfl
@[simp]
theorem withCondition_Finalizers (now : Nat) (gm : GenezioManager) (c : Condition) :
    (withCondition now gm c).Finalizers = gm.Finalizers := rfl
@[simp]
theorem withCondition_DeletionTimestamp (now : Nat) (gm : GenezioManager)
    (c : Condition) : (withCondition now gm c).DeletionTimestamp = gm.DeletionTimestamp := rfl

theorem removeFinalizer_of_contains (o : GenezioManager) (f : String)
    (hmem : f ∈ o.Finalizers) :
    removeFinalizer o f =
      ({ o with Finalizers := o.Finalizers.filter (fun x => x != f) }, true) := by
  unfold removeFinalizer
  simp only [Prod.mk.injEq, true_and]
  have hlt : (o.Finalizers.filter (fun x => x != f)).length < o.Finalizers.length := by
    apply List.length_filter_lt_length_iff_exists.mpr
    exact ⟨f, hmem, by simp⟩
  simp
  omega


/-! ### Pieces of a pass in which the store answers every call -/

@[simp]
theorem put_calls (w : World) (g : GenezioManager) : (w.put g).calls = w.calls := rfl
@[simp]
theorem put_faults (w : World) (g : GenezioManager) : (w.put g).faults = w.faults := rfl
@[simp]
theorem put_deployments (w : World) (g : GenezioManager) :
    (w.put g).deployments = w.deployments := rfl
@[simp]
theorem put_environ (w : World) (g : GenezioManager) : (w.put g).environ = w.environ := rfl
@[simp]
theorem put_now (w : World) (g : GenezioManager) : (w.put g).now = w.now := rfl
@[simp]
theorem put_managers_same (w : World) (g : GenezioManager) :
    (w.put g).managers ⟨g.Namespace, g.Name⟩ = some g := by
  simp [World.put]

theorem quiet_record (w : World) (c : Call) (o : Option Error) (h : w.quiet) :
    (w.record c o).quiet := h

theorem quiet_put (w : World) (g : GenezioManager) (h : w.quiet) : (w.put g).quiet := h

theorem quiet_of_noFaults (w : World) (h : w.noFaults) : w.quiet := fun n c _ => h n c

theorem clientGet_ok (w : World) (key : NamespacedName) (gm : GenezioManager)
    (hq : w.quiet) (h : w.managers key = some gm) :
    clientGet w key = (.ok gm, w.record (.get key) none) := by
  have hf : w.faults w.calls.length (Call.get key) = none := hq _ _ rfl
  simp [clientGet, World.fault, hf, h]

theorem clientStatusUpdate_ok (w : World) (obj stored : GenezioManager)
    (hq : w.quiet) (h : w.managers ⟨obj.Namespace, obj.Name⟩ = some stored) :
    clientStatusUpdate w obj =
      (.ok { stored with Status := obj.Status },
       (w.put { stored with Status := obj.Status }).record (.statusUpdate obj) none) := by
  have hf : w.faults w.calls.length (Call.statusUpdate obj) = none := hq _ _ rfl
  simp [clientStatusUpdate, World.fault, hf, h]

theorem clientUpdate_ok (w : World) (obj stored : GenezioManager)
    (hq : w.quiet) (h : w.managers ⟨obj.Namespace, obj.Name⟩ = some stored) :
    clientUpdate w obj =
      (.ok { obj with Status := stored.Status },
       (w.put { obj with Status := stored.Status }).record (.update obj) none) := by
  have hf : w.faults w.calls.length (Call.update obj) = none := hq _ _ rfl
  simp [clientUpdate, World.fault, hf, h]

theorem clientGetDeployment_none (w : World) (key : NamespacedName)
    (hq : w.quiet) (h : w.deployments key = none) :
    clientGetDeployment w key =
      (.error (notFoundError key), w.record (.getDeployment key) (some (notFoundError key))) := by
  have hf : w.faults w.calls.length (Call.getDeployment key) = none := hq _ _ rfl
  simp [clientGetDeployment, World.fault, hf, h]

theorem clientGetDeployment_some (w : World) (key : NamespacedName) (dep : Deployment)
    (hq : w.quiet) (h : w.deployments key = some dep) :
    clientGetDeployment w key = (.ok dep, w.record (.getDeployment key) none) := by
  have hf : w.faults w.calls.length (Call.getDeployment key) = none := hq _ _ rfl
  simp [clientGetDeployment, World.fault, hf, h]

/-- Reconcile on a stored resource with conditions goes to the finalizer block after the fetch -/
theorem Reconcile_initialized (r : GenezioManagerReconciler) (w : World) (gm : GenezioManager)
    (hq : w.quiet) (hst : w.managers (keyOf gm) = some gm)
    (hcond : gm.Status.Conditions.length ≠ 0) :
    Reconcile r (keyOf gm) w =
      reconcileFinalizer r (keyOf gm) gm (w.record (.get (keyOf gm)) none) := by
  unfold Reconcile
  rw [clientGet_ok w _ gm hq hst]
  simp [hcond]

theorem Reconcile_uninitialized (r : GenezioManagerReconciler) (w : World) (gm : GenezioManager)
    (hq : w.quiet) (hst : w.managers (keyOf gm) = some gm)
    (hcond : gm.Status.Conditions.length = 0) :
    Reconcile r (keyOf gm) w =
      reconcileFinalizer r (keyOf gm) (withCondition w.now gm startingCondition)
        (((((w.record (.get (keyOf gm)) none).put (withCondition w.now gm startingCondition)).record
          (.statusUpdate (withCondition w.now gm startingCondition)) none).record
          (.get (keyOf gm)) none)) := by
  unfold Reconcile
  rw [clientGet_ok w _ gm hq hst]
  simp only [hcond, if_true]
  rw [clientStatusUpdate_ok _ _ gm (quiet_record _ _ _ hq) (by simpa [keyOf] using hst)]
  simp only []
  rw [clientGet_ok _ _ (withCondition w.now gm startingCondition)
    (quiet_record _ _ _ (quiet_put _ _ (quiet_record _ _ _ hq)))
    (by simp [keyOf, withCondition])]
  rfl

theorem reconcileFinalizer_present (r : GenezioManagerReconciler) (req : NamespacedName)
    (w : World) (gm : GenezioManager)
    (hfin : containsFinalizer gm geneziomanagerFinalizer = true) :
    reconcileFinalizer r req gm w = reconcileMarked r req gm w := by
  simp [reconcileFinalizer, hfin]

theorem reconcileFinalizer_absent (r : GenezioManagerReconciler) (req : NamespacedName)
    (w : World) (gm : GenezioManager)
    (hq : w.quiet) (hst : w.managers (keyOf gm) = some gm)
    (hfin : containsFinalizer gm geneziomanagerFinalizer = false) :
    reconcileFinalizer r req gm w =
      reconcileMarked r req { gm with Finalizers := gm.Finalizers ++ [geneziomanagerFinalizer] }
        ((w.put { gm with Finalizers := gm.Finalizers ++ [geneziomanagerFinalizer] }).record
          (.update { gm with Finalizers := gm.Finalizers ++ [geneziomanagerFinalizer] }) none) := by
  have hadd : addFinalizer gm geneziomanagerFinalizer =
      ({ gm with Finalizers := gm.Finalizers ++ [geneziomanagerFinalizer] }, true) := by
    have hmem : geneziomanagerFinalizer ∉ gm.Finalizers := by
      simpa [containsFinalizer] using hfin
    simp [addFinalizer, hmem]
  unfold reconcileFinalizer
  simp only [hfin, hadd]
  rw [clientUpdate_ok _ _ gm hq (by simpa [keyOf] using hst)]
  rfl

/-- The deletion block on a stored resource that holds the token, every call answered -/
theorem reconcileDelete_run (w : World) (gm : GenezioManager)
    (hq : w.quiet) (hst : w.managers (keyOf gm) = some gm)
    (hfin : containsFinalizer gm geneziomanagerFinalizer = true) :
    (reconcileDelete (keyOf gm) gm w).1 = .returned {} none ∧
    (reconcileDelete (keyOf gm) gm w).2.calls =
      w.calls ++
        [(.statusUpdate (withCondition w.now gm (finalizingCondition gm.Name)), none),
         (.get (keyOf gm), none),
         (.statusUpdate (withCondition w.now (withCondition w.now gm
            (finalizingCondition gm.Name)) (finalizedCondition gm.Name)), none),
         (.update { withCondition w.now (withCondition w.now gm
            (finalizingCondition gm.Name)) (finalizedCondition gm.Name) with
            Finalizers := gm.Finalizers.filter (fun f => f != geneziomanagerFinalizer) },
          none)] ∧
    (reconcileDelete (keyOf gm) gm w).2.managers (keyOf gm) =
      some { withCondition w.now (withCondition w.now gm
            (finalizingCondition gm.Name)) (finalizedCondition gm.Name) with
            Finalizers := gm.Finalizers.filter (fun f => f != geneziomanagerFinalizer) } := by
  have hc : geneziomanagerFinalizer ∈ gm.Finalizers := by
    simpa [containsFinalizer] using hfin
  have hk : w.managers ⟨gm.Namespace, gm.Name⟩ = some gm := hst
  unfold reconcileDelete
  simp only [hfin, if_true]
  rw [clientStatusUpdate_ok _ _ gm hq (by simpa using hk)]
  simp only []
  rw [clientGet_ok _ _ (withCondition w.now gm (finalizingCondition gm.Name))
    (quiet_record _ _ _ (quiet_put _ _ hq)) (by simp [keyOf, withCondition])]
  simp only []
  rw [clientStatusUpdate_ok _ _ (withCondition w.now gm (finalizingCondition gm.Name))
    (quiet_record _ _ _ (quiet_record _ _ _ (quiet_put _ _ hq)))
    (by simp [keyOf, withCondition])]
  simp only []
  rw [removeFinalizer_of_contains _ _ (by simpa using hc)]
  simp only []
  rw [clientUpdate_ok _ _
    (withCondition w.now (withCondition w.now gm (finalizingCondition gm.Name))
      (finalizedCondition gm.Name))
    (quiet_record _ _ _ (quiet_put _ _ (quiet_record _ _ _ (quiet_record _ _ _
      (quiet_put _ _ hq)))))
    (by simp [keyOf, withCondition])]
  simp only [true_and]
  refine ⟨?_, ?_⟩
  · simp only [record_calls, put_calls, List.append_assoc]
    rfl
  · rw [record_managers]
    exact put_managers_same _ _

theorem reconcileDeployment_present (r : GenezioManagerReconciler) (w : World)
    (gm : GenezioManager) (found : Deployment)
    (hq : w.quiet) (hst : w.managers (keyOf gm) = some gm)
    (hdep : w.deployments (keyOf gm) = some found) :
    (reconcileDeployment r gm w).1 = .returned {} none ∧
    (reconcileDeployment r gm w).2.calls =
      w.calls ++
        [(.getDeployment (keyOf gm), none),
         (.statusUpdate (withCondition w.now gm (createdCondition gm.Name)), none)] ∧
    (reconcileDeployment r gm w).2.managers (keyOf gm) =
      some (withCondition w.now gm (createdCondition gm.Name)) := by
  have hk : w.managers ⟨gm.Namespace, gm.Name⟩ = some gm := hst
  unfold reconcileDeployment
  rw [clientGetDeployment_some _ ⟨gm.Namespace, gm.Name⟩ found hq hdep]
  simp only []
  rw [clientStatusUpdate_ok _ _ gm (quiet_record _ _ _ hq) (by simpa using hk)]
  simp only [true_and]
  refine ⟨?_, ?_⟩
  · simp only [record_calls, put_calls, List.append_assoc]
    rfl
  · rw [record_managers]
    exact put_managers_same _ _

theorem reconcileDeployment_synthesis_error (r : GenezioManagerReconciler) (w : World)
    (gm : GenezioManager) (derr : Error)
    (hq : w.quiet) (hst : w.managers (keyOf gm) = some gm)
    (hdep : w.deployments (keyOf gm) = none)
    (hsyn : deploymentForGenezioManager r w.environ gm = .err derr) :
    (reconcileDeployment r gm w).1 = .returned {} (some derr) ∧
    (reconcileDeployment r gm w).2.calls =
      w.calls ++
        [(.getDeployment (keyOf gm), some (notFoundError (keyOf gm))),
         (.statusUpdate (withCondition w.now gm (failedCondition gm.Name derr)), none)] ∧
    (reconcileDeployment r gm w).2.managers (keyOf gm) =
      some (withCondition w.now gm (failedCondition gm.Name derr)) := by
  have hk : w.managers ⟨gm.Namespace, gm.Name⟩ = some gm := hst
  unfold reconcileDeployment
  rw [clientGetDeployment_none _ ⟨gm.Namespace, gm.Name⟩ hq hdep]
  simp only [notFoundError, if_true, record_environ, hsyn]
  rw [clientStatusUpdate_ok _ _ gm (quiet_record _ _ _ hq) (by simpa using hk)]
  simp only [true_and]
  refine ⟨?_, ?_⟩
  · simp only [record_calls, put_calls, List.append_assoc]
    rfl
  · rw [record_managers]
    exact put_managers_same _ _

theorem reconcileDeployment_panic (r : GenezioManagerReconciler) (w : World)
    (gm : GenezioManager) (p : Panic)
    (hq : w.quiet) (hdep : w.deployments (keyOf gm) = none)
    (hsyn : deploymentForGenezioManager r w.environ gm = .panicked p) :
    (reconcileDeployment r gm w).1 = .panicked p ∧
    (reconcileDeployment r gm w).2.calls =
      w.calls ++ [(.getDeployment (keyOf gm), some (notFoundError (keyOf gm)))] := by
  unfold reconcileDeployment
  rw [clientGetDeployment_none _ ⟨gm.Namespace, gm.Name⟩ hq hdep]
  simp only [notFoundError, if_true, record_environ, hsyn]
  exact ⟨trivial, rfl⟩

theorem reconcileDeployment_create (r : GenezioManagerReconciler) (w : World)
    (gm : GenezioManager) (dep : Deployment)
    (hq : w.quiet) (hdep : w.deployments (keyOf gm) = none)
    (hsyn : deploymentForGenezioManager r w.environ gm = .val dep) :
    (reconcileDeployment r gm w).2.calls =
      w.calls ++
        [(.getDeployment (keyOf gm), some (notFoundError (keyOf gm))),
         (.create dep, w.faults (w.calls.length + 1) (.create dep))] ∧
    (w.faults (w.calls.length + 1) (.create dep) = none →
      (reconcileDeployment r gm w).1 = .returned { RequeueAfter := timeMinute } none) ∧
    (∀ e, w.faults (w.calls.length + 1) (.create dep) = some e →
      (reconcileDeployment r gm w).1 = .returned {} (some e)) := by
  obtain ⟨_, _, _, _, hname, hns⟩ := deploymentForGenezioManager_val r w.environ gm dep hsyn
  have hd : w.deployments ⟨dep.Namespace, dep.Name⟩ = none := by
    rw [hname, hns]; exact hdep
  unfold reconcileDeployment
  rw [clientGetDeployment_none _ ⟨gm.Namespace, gm.Name⟩ hq hdep]
  simp only [notFoundError, if_true, record_environ, hsyn]
  unfold clientCreate
  simp only [World.fault, record_calls, record_faults, record_deployments, List.length_append,
    List.length_singleton, hd]
  cases hf : w.faults (w.calls.length + 1) (.create dep) with
  | none => simp [World.record, keyOf]
  | some e => simp [World.record, keyOf]


/-- Synthesis reads the name, namespace, UID and spec of the resource only. -/
theorem deploymentForGenezioManager_congr (r : GenezioManagerReconciler) (env : Environ)
    (g gm : GenezioManager) (h1 : g.Name = gm.Name) (h2 : g.Namespace = gm.Namespace)
    (h3 : g.UID = gm.UID) (h4 : g.Spec = gm.Spec) :
    deploymentForGenezioManager r env g = deploymentForGenezioManager r env gm := by
  simp [deploymentForGenezioManager, deploymentLiteral, setControllerReference, h1, h2, h3, h4]

theorem Resumes.key {w w1 : World} {gm g : GenezioManager} (h : Resumes w gm w1 g) :
    keyOf g = keyOf gm := by
  simp [keyOf, h.name, h.ns]

theorem Resumes.stored_self {w w1 : World} {gm g : GenezioManager} (h : Resumes w gm w1 g) :
    w1.managers (keyOf g) = some g := by
  rw [h.key]; exact h.stored

theorem Resumes.trans {w w1 w2 : World} {gm g g2 : GenezioManager} (h : Resumes w gm w1 g)
    (h2 : Resumes w1 g w2 g2) : Resumes w gm w2 g2 :=
  { quiet := h2.quiet
    stored := by rw [← h.key]; exact h2.stored
    name := h2.name.trans h.name
    ns := h2.ns.trans h.ns
    uid := h2.uid.trans h.uid
    spec := h2.spec.trans h.spec
    deletion := h2.deletion.trans h.deletion
    deployments := h2.deployments.trans h.deployments
    environ := h2.environ.trans h.environ
    now := h2.now.trans h.now
    faults := h2.faults.trans h.faults }

theorem Resumes.synthesis {w w1 : World} {gm g : GenezioManager} (h : Resumes w gm w1 g)
    (r : GenezioManagerReconciler) :
    deploymentForGenezioManager r w1.environ g = deploymentForGenezioManager r w.environ gm := by
  rw [h.environ]
  exact deploymentForGenezioManager_congr r w.environ g gm h.name h.ns h.uid h.spec

/-- The first block of Reconcile on a stored resource, every call answered: the pass enters the
finalizer block after the fetch, or after the fetch, the status write of Available=Unknown and
the refetch when the resource has no condition. -/
theorem Reconcile_enters (r : GenezioManagerReconciler) (w : World) (gm : GenezioManager)
    (hq : w.quiet) (hst : w.managers (keyOf gm) = some gm) :
    ∃ w1 g, Reconcile r (keyOf gm) w = reconcileFinalizer r (keyOf gm) g w1 ∧
      Resumes w gm w1 g ∧
      w1.calls = w.calls ++
        (if gm.Status.Conditions.length = 0 then
          [(Call.get (keyOf gm), none),
           (Call.statusUpdate (withCondition w.now gm startingCondition), none),
           (Call.get (keyOf gm), none)]
         else [(Call.get (keyOf gm), none)]) ∧
      g.Finalizers = gm.Finalizers := by
  by_cases hcond : gm.Status.Conditions.length = 0
  · refine ⟨_, _, Reconcile_uninitialized r w gm hq hst hcond, ?_, ?_, rfl⟩
    · exact
        { quiet := hq
          stored := by
            rw [record_managers, record_managers]
            exact put_managers_same _ _
          name := rfl, ns := rfl, uid := rfl, spec := rfl, deletion := rfl
          deployments := rfl, environ := rfl, now := rfl, faults := rfl }
    · simp [hcond]
  · refine ⟨_, _, Reconcile_initialized r w gm hq hst hcond, ?_, ?_, rfl⟩
    · exact
        { quiet := hq
          stored := hst
          name := rfl, ns := rfl, uid := rfl, spec := rfl, deletion := rfl
          deployments := rfl, environ := rfl, now := rfl, faults := rfl }
    · simp [hcond]

/-- The finalizer block on a stored resource, every call answered: the pass goes on with the
token on the resource, after a resource update that adds it when it was missing. -/
theorem reconcileFinalizer_enters (r : GenezioManagerReconciler) (req : NamespacedName)
    (w : World) (gm : GenezioManager)
    (hq : w.quiet) (hst : w.managers (keyOf gm) = some gm) :
    ∃ w1 g, reconcileFinalizer r req gm w = reconcileMarked r req g w1 ∧
      Resumes w gm w1 g ∧
      containsFinalizer g geneziomanagerFinalizer = true ∧
      g.Status = gm.Status ∧
      w1.calls = w.calls ++
        (if containsFinalizer gm geneziomanagerFinalizer = true then []
         else [(Call.update g, none)]) ∧
      g.Finalizers =
        (if containsFinalizer gm geneziomanagerFinalizer = true then gm.Finalizers
         else gm.Finalizers ++ [geneziomanagerFinalizer]) := by
  by_cases hfin : containsFinalizer gm geneziomanagerFinalizer = true
  · refine ⟨w, gm, reconcileFinalizer_present r req w gm hfin, ?_, hfin, rfl, ?_, ?_⟩
    · exact
        { quiet := hq
          stored := hst
          name := rfl, ns := rfl, uid := rfl, spec := rfl, deletion := rfl
          deployments := rfl, environ := rfl, now := rfl, faults := rfl }
    · simp [hfin]
    · simp [hfin]
  · have hfin2 : containsFinalizer gm geneziomanagerFinalizer = false := by
      simpa using hfin
    refine ⟨_, _, reconcileFinalizer_absent r req w gm hq hst hfin2, ?_, ?_, rfl, ?_, ?_⟩
    · exact
        { quiet := hq
          stored := by
            rw [record_managers]
            exact put_managers_same _ _
          name := rfl, ns := rfl, uid := rfl, spec := rfl, deletion := rfl
          deployments := rfl, environ := rfl, now := rfl, faults := rfl }
    · simp [containsFinalizer]
    · simp [hfin]
    · simp [hfin]

/-- A check of every entry of a log gives the property of each of its members. -/
theorem forall_of_all (p : Call → Bool) (l : List (Call × Option Error))
    (h : l.all (fun x => !p x.1) = true) : ∀ x ∈ l, p x.1 = false := by
  intro x hx
  simpa using (List.all_eq_true.mp h) x hx

theorem keyOf_withCondition (now : Nat) (gm : GenezioManager) (c : Condition) :
    keyOf (withCondition now gm c) = keyOf gm := rfl

/-- From the deletion test on, a pass on a stored resource that holds the token makes at least
one store call and does not return the requeue-now directive, when every call other than a
Create is answered. -/
theorem reconcileMarked_progress (r : GenezioManagerReconciler) (w : World)
    (gm : GenezioManager)
    (hq : w.quiet) (hst : w.managers (keyOf gm) = some gm)
    (hfin : containsFinalizer gm geneziomanagerFinalizer = true) :
    (reconcileMarked r (keyOf gm) gm w).1.requeueNow = false ∧
    ∃ c rest, (reconcileMarked r (keyOf gm) gm w).2.calls = w.calls ++ c :: rest := by
  unfold reconcileMarked
  by_cases hdel : gm.DeletionTimestamp.isSome = true
  · obtain ⟨h1, h2, _⟩ := reconcileDelete_run w gm hq hst hfin
    simp only [hdel, if_true]
    rw [h1, h2]
    exact ⟨rfl, _, _, rfl⟩
  · have hdel0 : gm.DeletionTimestamp.isSome = false := by simpa using hdel
    simp only [hdel0, Bool.false_eq_true, if_false]
    cases hd : w.deployments (keyOf gm) with
    | some found =>
      obtain ⟨h1, h2, _⟩ := reconcileDeployment_present r w gm found hq hst hd
      rw [h1, h2]
      exact ⟨rfl, _, _, rfl⟩
    | none =>
      cases hs : deploymentForGenezioManager r w.environ gm with
      | val dep =>
        obtain ⟨h1, h2, h3⟩ := reconcileDeployment_create r w gm dep hq hd hs
        rw [h1]
        refine ⟨?_, _, _, rfl⟩
        cases hf : w.faults (w.calls.length + 1) (.create dep) with
        | none => rw [h2 hf]; rfl
        | some e => rw [h3 e hf]; rfl
      | err derr =>
        obtain ⟨h1, h2, _⟩ := reconcileDeployment_synthesis_error r w gm derr hq hst hd hs
        rw [h1, h2]
        exact ⟨rfl, _, _, rfl⟩
      | panicked p =>
        obtain ⟨h1, h2⟩ := reconcileDeployment_panic r w gm p hq hd hs
        rw [h1, h2]
        exact ⟨rfl, _, _, rfl⟩

/-- From the finalizer block on, a pass on a stored resource makes at least one store call and
does not return the requeue-now directive, when every call other than a Create is answered;
its first call is the resource update that adds the token when the token is missing. -/
theorem reconcileFinalizer_progress (r : GenezioManagerReconciler) (w : World)
    (gm : GenezioManager)
    (hq : w.quiet) (hst : w.managers (keyOf gm) = some gm) :
    (reconcileFinalizer r (keyOf gm) gm w).1.requeueNow = false ∧
    (∃ c rest, (reconcileFinalizer r (keyOf gm) gm w).2.calls = w.calls ++ c :: rest) ∧
    (containsFinalizer gm geneziomanagerFinalizer = false →
      ∃ u rest, (reconcileFinalizer r (keyOf gm) gm w).2.calls =
          w.calls ++ (.update u, none) :: rest ∧
        u.Finalizers = gm.Finalizers ++ [geneziomanagerFinalizer]) := by
  obtain ⟨w1, g, hrun, hres, hfin1, _, hcalls, hfins⟩ :=
    reconcileFinalizer_enters r (keyOf gm) w gm hq hst
  obtain ⟨h1, c, rest, h2⟩ := reconcileMarked_progress r w1 g hres.quiet hres.stored_self hfin1
  rw [hres.key] at h1 h2
  rw [hrun, h1, h2, hcalls]
  refine ⟨rfl, ?_, ?_⟩
  · by_cases hfin : containsFinalizer gm geneziomanagerFinalizer = true
    · exact ⟨c, rest, by simp [hfin]⟩
    · exact ⟨(.update g, none), c :: rest, by simp [hfin]⟩
  · intro hfin
    exact ⟨g, c :: rest, by simp [hfin], by simp [hfins, hfin]⟩

/-! ### Every pass: failed writes and the finalizer token -/

theorem abortsAtFailedWrite_spec (ext : List (Call × Option Error)) (o : Outcome)
    (h : abortsAtFailedWrite ext o) (pre post : List (Call × Option Error)) (c : Call)
    (e : Error) (hext : ext = pre ++ (c, some e) :: post) (hw : c.isWrite = true) :
    post = [] ∧ o = .returned {} (some e) := by
  induction pre generalizing ext with
  | nil =>
    subst hext
    simpa [abortsAtFailedWrite, hw] using h
  | cons x xs ih =>
    subst hext
    obtain ⟨c1, o1⟩ := x
    cases o1 with
    | none => exact ih _ (by simpa [abortsAtFailedWrite] using h) rfl
    | some e1 =>
      by_cases hw1 : c1.isWrite = true
      · simp [abortsAtFailedWrite, hw1] at h
      · exact ih _ (by simpa [abortsAtFailedWrite, hw1] using h) rfl

theorem AbortsFrom.after_ok {base : List (Call × Option Error)} {res : Outcome × World}
    {c : Call} (h : AbortsFrom (base ++ [(c, none)]) res) : AbortsFrom base res := by
  obtain ⟨ext, h1, h2⟩ := h
  exact ⟨(c, none) :: ext, by simp [h1], by simpa [abortsAtFailedWrite] using h2⟩

theorem AbortsFrom.after_read {base : List (Call × Option Error)} {res : Outcome × World}
    {c : Call} {x : Option Error} (hc : c.isWrite = false)
    (h : AbortsFrom (base ++ [(c, x)]) res) : AbortsFrom base res := by
  obtain ⟨ext, h1, h2⟩ := h
  refine ⟨(c, x) :: ext, by simp [h1], ?_⟩
  cases x with
  | none => simpa [abortsAtFailedWrite] using h2
  | some e => simpa [abortsAtFailedWrite, hc] using h2

theorem AbortsFrom.after_ok_at {base : List (Call × Option Error)} {res : Outcome × World}
    {c : Call} {v : World} (hc : v.calls = base ++ [(c, none)])
    (h : AbortsFrom v.calls res) : AbortsFrom base res := by
  rw [hc] at h; exact h.after_ok

theorem AbortsFrom.after_read_at {base : List (Call × Option Error)} {res : Outcome × World}
    {c : Call} {x : Option Error} {v : World} (hr : c.isWrite = false)
    (hc : v.calls = base ++ [(c, x)])
    (h : AbortsFrom v.calls res) : AbortsFrom base res := by
  rw [hc] at h; exact h.after_read hr

theorem AbortsFrom.at_last_ok (w : World) (g : GenezioManager) (c : Call) (o : Outcome) :
    AbortsFrom w.calls (o, (w.put g).record c none) :=
  ⟨[(c, none)], rfl, by simp [abortsAtFailedWrite]⟩

theorem AbortsFrom.at_failed_write (w : World) (c : Call) (e : Error) :
    AbortsFrom w.calls (.returned {} (some e), w.record c (some e)) :=
  ⟨[(c, some e)], rfl, by simp [abortsAtFailedWrite]⟩

theorem AbortsFrom.at_failed_read (w : World) (c : Call) (e : Error) (o : Outcome)
    (hc : c.isWrite = false) :
    AbortsFrom w.calls (o, w.record c (some e)) :=
  ⟨[(c, some e)], rfl, by simp [abortsAtFailedWrite, hc]⟩

theorem AbortsFrom.at_end (w : World) (o : Outcome) : AbortsFrom w.calls (o, w) :=
  ⟨[], by simp, by simp [abortsAtFailedWrite]⟩

/-- What r.Get does: it fails and logs the error, or returns the stored object. -/
theorem clientGet_cases (w : World) (key : NamespacedName) :
    (∃ e, clientGet w key = (.error e, w.record (.get key) (some e))) ∨
    (∃ obj, w.managers key = some obj ∧
      clientGet w key = (.ok obj, w.record (.get key) none)) := by
  unfold clientGet
  cases w.fault (.get key) with
  | some e => exact Or.inl ⟨e, rfl⟩
  | none =>
    cases h : w.managers key with
    | none => exact Or.inl ⟨_, rfl⟩
    | some obj => exact Or.inr ⟨obj, rfl, rfl⟩

theorem clientStatusUpdate_cases (w : World) (obj : GenezioManager) :
    (∃ e, clientStatusUpdate w obj = (.error e, w.record (.statusUpdate obj) (some e))) ∨
    (∃ stored, w.managers ⟨obj.Namespace, obj.Name⟩ = some stored ∧
      clientStatusUpdate w obj =
        (.ok { stored with Status := obj.Status },
         (w.put { stored with Status := obj.Status }).record (.statusUpdate obj) none)) := by
  unfold clientStatusUpdate
  cases w.fault (.statusUpdate obj) with
  | some e => exact Or.inl ⟨e, rfl⟩
  | none =>
    cases h : w.managers ⟨obj.Namespace, obj.Name⟩ with
    | none => exact Or.inl ⟨_, rfl⟩
    | some stored => exact Or.inr ⟨stored, rfl, rfl⟩

theorem clientUpdate_cases (w : World) (obj : GenezioManager) :
    (∃ e, clientUpdate w obj = (.error e, w.record (.update obj) (some e))) ∨
    (∃ stored, w.managers ⟨obj.Namespace, obj.Name⟩ = some stored ∧
      clientUpdate w obj =
        (.ok { obj with Status := stored.Status },
         (w.put { obj with Status := stored.Status }).record (.update obj) none)) := by
  unfold clientUpdate
  cases w.fault (.update obj) with
  | some e => exact Or.inl ⟨e, rfl⟩
  | none =>
    cases h : w.managers ⟨obj.Namespace, obj.Name⟩ with
    | none => exact Or.inl ⟨_, rfl⟩
    | some stored => exact Or.inr ⟨stored, rfl, rfl⟩

theorem clientGetDeployment_cases (w : World) (key : NamespacedName) :
    (∃ e, clientGetDeployment w key = (.error e, w.record (.getDeployment key) (some e))) ∨
    (∃ dep, clientGetDeployment w key = (.ok dep, w.record (.getDeployment key) none)) := by
  unfold clientGetDeployment
  cases w.fault (.getDeployment key) with
  | some e => exact Or.inl ⟨e, rfl⟩
  | none =>
    cases h : w.deployments key with
    | none => exact Or.inl ⟨_, rfl⟩
    | some dep => exact Or.inr ⟨dep, rfl⟩

theorem clientCreate_cases (w : World) (dep : Deployment) :
    (∃ e, clientCreate w dep = (some e, w.record (.create dep) (some e))) ∨
    (∃ w1, clientCreate w dep = (none, w1) ∧ w1.calls = w.calls ++ [(.create dep, none)]) := by
  unfold clientCreate
  cases w.fault (.create dep) with
  | some e => exact Or.inl ⟨e, rfl⟩
  | none =>
    cases h : w.deployments ⟨dep.Namespace, dep.Name⟩ with
    | some d => exact Or.inl ⟨_, rfl⟩
    | none => exact Or.inr ⟨_, rfl, rfl⟩


theorem clientGet_inv_error {w w1 : World} {key : NamespacedName} {e : Error}
    (h : clientGet w key = (.error e, w1)) : w1 = w.record (.get key) (some e) := by
  rcases clientGet_cases w key with ⟨e2, h2⟩ | ⟨obj, _, h2⟩
  · rw [h2] at h
    cases h
    rfl
  · rw [h2] at h
    cases h

theorem clientGet_inv_ok {w w1 : World} {key : NamespacedName} {obj : GenezioManager}
    (h : clientGet w key = (.ok obj, w1)) :
    w.managers key = some obj ∧ w1 = w.record (.get key) none := by
  rcases clientGet_cases w key with ⟨e2, h2⟩ | ⟨obj2, hm, h2⟩
  · rw [h2] at h
    cases h
  · rw [h2] at h
    cases h
    exact ⟨hm, rfl⟩

theorem clientStatusUpdate_inv_error {w w1 : World} {obj : GenezioManager} {e : Error}
    (h : clientStatusUpdate w obj = (.error e, w1)) :
    w1 = w.record (.statusUpdate obj) (some e) := by
  rcases clientStatusUpdate_cases w obj with ⟨e2, h2⟩ | ⟨st, _, h2⟩
  · rw [h2] at h
    cases h
    rfl
  · rw [h2] at h
    cases h

theorem clientStatusUpdate_inv_ok {w w1 : World} {obj g : GenezioManager}
    (h : clientStatusUpdate w obj = (.ok g, w1)) :
    ∃ stored, w.managers ⟨obj.Namespace, obj.Name⟩ = some stored ∧
      g = { stored with Status := obj.Status } ∧
      w1 = (w.put g).record (.statusUpdate obj) none := by
  rcases clientStatusUpdate_cases w obj with ⟨e2, h2⟩ | ⟨st, hm, h2⟩
  · rw [h2] at h
    cases h
  · rw [h2] at h
    cases h
    exact ⟨st, hm, rfl, rfl⟩

theorem clientUpdate_inv_error {w w1 : World} {obj : GenezioManager} {e : Error}
    (h : clientUpdate w obj = (.error e, w1)) :
    w1 = w.record (.update obj) (some e) := by
  rcases clientUpdate_cases w obj with ⟨e2, h2⟩ | ⟨st, _, h2⟩
  · rw [h2] at h
    cases h
    rfl
  · rw [h2] at h
    cases h

theorem clientUpdate_inv_ok {w w1 : World} {obj g : GenezioManager}
    (h : clientUpdate w obj = (.ok g, w1)) :
    ∃ stored, w.managers ⟨obj.Namespace, obj.Name⟩ = some stored ∧
      g = { obj with Status := stored.Status } ∧
      w1 = (w.put g).record (.update obj) none := by
  rcases clientUpdate_cases w obj with ⟨e2, h2⟩ | ⟨st, hm, h2⟩
  · rw [h2] at h
    cases h
  · rw [h2] at h
    cases h
    exact ⟨st, hm, rfl, rfl⟩

theorem clientGetDeployment_inv_error {w w1 : World} {key : NamespacedName} {e : Error}
    (h : clientGetDeployment w key = (.error e, w1)) :
    w1 = w.record (.getDeployment key) (some e) := by
  rcases clientGetDeployment_cases w key with ⟨e2, h2⟩ | ⟨dep, h2⟩
  · rw [h2] at h
    cases h
    rfl
  · rw [h2] at h
    cases h

theorem clientGetDeployment_inv_ok {w w1 : World} {key : NamespacedName} {dep : Deployment}
    (h : clientGetDeployment w key = (.ok dep, w1)) :
    w1 = w.record (.getDeployment key) none := by
  rcases clientGetDeployment_cases w key with ⟨e2, h2⟩ | ⟨dep2, h2⟩
  · rw [h2] at h
    cases h
  · rw [h2] at h
    cases h
    rfl

theorem clientCreate_inv_error {w w1 : World} {dep : Deployment} {e : Error}
    (h : clientCreate w dep = (some e, w1)) : w1 = w.record (.create dep) (some e) := by
  rcases clientCreate_cases w dep with ⟨e2, h2⟩ | ⟨w2, h2, _⟩
  · rw [h2] at h
    cases h
    rfl
  · rw [h2] at h
    cases h

theorem clientCreate_inv_ok {w w1 : World} {dep : Deployment}
    (h : clientCreate w dep = (none, w1)) : w1.calls = w.calls ++ [(.create dep, none)] := by
  rcases clientCreate_cases w dep with ⟨e2, h2⟩ | ⟨w2, h2, hc⟩
  · rw [h2] at h
    cases h
  · rw [h2] at h
    cases h
    exact hc

theorem reconcileDeployment_aborts (r : GenezioManagerReconciler) (gm : GenezioManager)
    (w : World) : AbortsFrom w.calls (reconcileDeployment r gm w) := by
  unfold reconcileDeployment
  split
  · rename_i err w1 hget
    have hw1 := clientGetDeployment_inv_error hget
    subst hw1
    split
    · apply AbortsFrom.after_read (c := .getDeployment ⟨gm.Namespace, gm.Name⟩) (x := some err) rfl
      split
      · exact AbortsFrom.at_end (World.record _ _ _) _
      · split
        · rename_i uerr w2 hsu
          have hw2 := clientStatusUpdate_inv_error hsu
          subst hw2
          exact AbortsFrom.at_failed_write _ _ _
        · rename_i g w2 hsu
          obtain ⟨_, _, _, hw2⟩ := clientStatusUpdate_inv_ok hsu
          subst hw2
          exact AbortsFrom.at_last_ok _ _ _ _
      · split
        · rename_i cerr w2 hcr
          have hw2 := clientCreate_inv_error hcr
          subst hw2
          exact AbortsFrom.at_failed_write _ _ _
        · rename_i w2 hcr
          exact AbortsFrom.after_ok_at (clientCreate_inv_ok hcr) (AbortsFrom.at_end _ _)
    · exact AbortsFrom.at_failed_read _ _ _ _ rfl
  · rename_i found w1 hget
    have hw1 := clientGetDeployment_inv_ok hget
    subst hw1
    apply AbortsFrom.after_ok (c := .getDeployment ⟨gm.Namespace, gm.Name⟩)
    split
    · rename_i uerr w2 hsu
      have hw2 := clientStatusUpdate_inv_error hsu
      subst hw2
      exact AbortsFrom.at_failed_write _ _ _
    · rename_i g w2 hsu
      obtain ⟨_, _, _, hw2⟩ := clientStatusUpdate_inv_ok hsu
      subst hw2
      exact AbortsFrom.at_last_ok _ _ _ _

theorem reconcileDelete_aborts (req : NamespacedName) (gm : GenezioManager) (w : World) :
    AbortsFrom w.calls (reconcileDelete req gm w) := by
  unfold reconcileDelete
  split
  · split
    · rename_i err w1 hsu
      have hw1 := clientStatusUpdate_inv_error hsu
      subst hw1
      exact AbortsFrom.at_failed_write _ _ _
    · rename_i g w1 hsu
      obtain ⟨_, _, _, hw1⟩ := clientStatusUpdate_inv_ok hsu
      apply AbortsFrom.after_ok_at (v := w1) (c := .statusUpdate (withCondition w.now gm
        (finalizingCondition gm.Name))) (by rw [hw1]; rfl)
      split
      · rename_i err w2 hget
        have hw2 := clientGet_inv_error hget
        subst hw2
        exact AbortsFrom.at_failed_read _ _ _ _ rfl
      · rename_i refetched w2 hget
        obtain ⟨_, hw2⟩ := clientGet_inv_ok hget
        apply AbortsFrom.after_ok_at (v := w2) (c := .get req) (by rw [hw2]; rfl)
        split
        · rename_i err w3 hsu2
          have hw3 := clientStatusUpdate_inv_error hsu2
          subst hw3
          exact AbortsFrom.at_failed_write _ _ _
        · rename_i updated w3 hsu2
          obtain ⟨_, _, _, hw3⟩ := clientStatusUpdate_inv_ok hsu2
          apply AbortsFrom.after_ok_at (v := w3) (c := .statusUpdate (withCondition w2.now refetched
            (finalizedCondition refetched.Name))) (by rw [hw3]; rfl)
          split
          · exact AbortsFrom.at_end _ _
          · split
            · rename_i err w4 hup
              have hw4 := clientUpdate_inv_error hup
              subst hw4
              exact AbortsFrom.at_failed_write _ _ _
            · rename_i g4 w4 hup
              obtain ⟨_, _, _, hw4⟩ := clientUpdate_inv_ok hup
              subst hw4
              exact AbortsFrom.at_last_ok _ _ _ _
  · exact AbortsFrom.at_end _ _

theorem reconcileMarked_aborts (r : GenezioManagerReconciler) (req : NamespacedName)
    (gm : GenezioManager) (w : World) : AbortsFrom w.calls (reconcileMarked r req gm w) := by
  unfold reconcileMarked
  split
  · exact reconcileDelete_aborts req gm w
  · exact reconcileDeployment_aborts r gm w

theorem reconcileFinalizer_aborts (r : GenezioManagerReconciler) (req : NamespacedName)
    (gm : GenezioManager) (w : World) : AbortsFrom w.calls (reconcileFinalizer r req gm w) := by
  unfold reconcileFinalizer
  split
  · split
    · exact AbortsFrom.at_end _ _
    · rename_i added hadd
      split
      · rename_i err w1 hup
        have hw1 := clientUpdate_inv_error hup
        subst hw1
        exact AbortsFrom.at_failed_write _ _ _
      · rename_i updated w1 hup
        obtain ⟨_, _, _, hw1⟩ := clientUpdate_inv_ok hup
        exact AbortsFrom.after_ok_at (v := w1) (c := .update added) (by rw [hw1]; rfl)
          (reconcileMarked_aborts r req updated w1)
  · exact reconcileMarked_aborts r req gm w

theorem Reconcile_aborts (r : GenezioManagerReconciler) (req : NamespacedName) (w : World) :
    AbortsFrom w.calls (Reconcile r req w) := by
  unfold Reconcile
  split
  · rename_i err w1 hget
    have hw1 := clientGet_inv_error hget
    subst hw1
    exact AbortsFrom.at_failed_read _ _ _ _ rfl
  · rename_i obj w1 hget
    obtain ⟨_, hw1⟩ := clientGet_inv_ok hget
    apply AbortsFrom.after_ok_at (v := w1) (c := .get req) (by rw [hw1]; rfl)
    split
    · split
      · rename_i err w2 hsu
        have hw2 := clientStatusUpdate_inv_error hsu
        subst hw2
        exact AbortsFrom.at_failed_write _ _ _
      · rename_i g w2 hsu
        obtain ⟨_, _, _, hw2⟩ := clientStatusUpdate_inv_ok hsu
        apply AbortsFrom.after_ok_at (v := w2)
          (c := .statusUpdate (withCondition w1.now obj startingCondition)) (by rw [hw2]; rfl)
        split
        · rename_i err w3 hget2
          have hw3 := clientGet_inv_error hget2
          subst hw3
          exact AbortsFrom.at_failed_read _ _ _ _ rfl
        · rename_i refetched w3 hget2
          obtain ⟨_, hw3⟩ := clientGet_inv_ok hget2
          exact AbortsFrom.after_ok_at (v := w3) (c := .get req) (by rw [hw3]; rfl)
            (reconcileFinalizer_aborts r req refetched w3)
    · exact reconcileFinalizer_aborts r req obj w1

theorem KeepsToken.through_ok {key : NamespacedName} {base : List (Call × Option Error)}
    {res : Outcome × World} {c : Call} {v : World} (hc : v.calls = base ++ [(c, none)])
    (h : KeepsToken key v.calls res) : KeepsToken key base res := by
  obtain ⟨ext, h1, h2⟩ := h
  refine ⟨(c, none) :: ext, by simp [h1, hc], ?_⟩
  rintro ⟨o, e, hm⟩
  apply h2
  simp at hm
  exact ⟨o, e, hm⟩

theorem KeepsToken.no_call (key : NamespacedName) (w : World) (o : Outcome) :
    KeepsToken key w.calls (o, w) :=
  ⟨[], by simp, by simp⟩

theorem KeepsToken.last_ok (key : NamespacedName) (w : World) (g : GenezioManager) (c : Call)
    (o : Outcome) : KeepsToken key w.calls (o, (w.put g).record c none) :=
  ⟨[(c, none)], rfl, by simp⟩

theorem KeepsToken.fail_get (key k : NamespacedName) (w : World) (e : Error) (o : Outcome) :
    KeepsToken key w.calls (o, w.record (.get k) (some e)) :=
  ⟨[(.get k, some e)], rfl, by simp⟩

theorem KeepsToken.fail_update (key : NamespacedName) (w : World) (obj : GenezioManager)
    (e : Error) (o : Outcome) :
    KeepsToken key w.calls (o, w.record (.update obj) (some e)) :=
  ⟨[(.update obj, some e)], rfl, by simp⟩

theorem KeepsToken.fail_statusUpdate (key : NamespacedName) (w : World)
    (obj g : GenezioManager) (e : Error) (o : Outcome) (hst : w.managers key = some g)
    (hfin : containsFinalizer g geneziomanagerFinalizer = true) :
    KeepsToken key w.calls (o, w.record (.statusUpdate obj) (some e)) :=
  ⟨[(.statusUpdate obj, some e)], rfl, fun _ => ⟨g, hst, hfin⟩⟩

theorem reconcileDelete_keeps (gm : GenezioManager) (w : World)
    (hst : w.managers (keyOf gm) = some gm)
    (hfin : containsFinalizer gm geneziomanagerFinalizer = true) :
    KeepsToken (keyOf gm) w.calls (reconcileDelete (keyOf gm) gm w) := by
  unfold reconcileDelete
  simp only [hfin, if_true]
  split
  · rename_i err w1 hsu
    have hw1 := clientStatusUpdate_inv_error hsu
    subst hw1
    exact KeepsToken.fail_statusUpdate _ _ _ gm _ _ hst hfin
  · rename_i g w1 hsu
    obtain ⟨stored, hs, hg, hw1⟩ := clientStatusUpdate_inv_ok hsu
    have hsg : stored = gm := by
      have : w.managers (keyOf gm) = some stored := hs
      rw [hst] at this
      exact (Option.some.inj this).symm
    subst hsg
    have hst1 : w1.managers (keyOf stored) = some g := by
      rw [hw1, record_managers, hg]
      exact put_managers_same _ _
    have hfin1 : containsFinalizer g geneziomanagerFinalizer = true := by
      rw [hg]; exact hfin
    apply KeepsToken.through_ok (v := w1) (c := .statusUpdate (withCondition w.now stored
      (finalizingCondition stored.Name))) (by rw [hw1]; rfl)
    split
    · rename_i err w2 hget
      have hw2 := clientGet_inv_error hget
      subst hw2
      exact KeepsToken.fail_get _ _ _ _ _
    · rename_i refetched w2 hget
      obtain ⟨hr, hw2⟩ := clientGet_inv_ok hget
      have hrg : refetched = g := by
        rw [hst1] at hr
        exact (Option.some.inj hr).symm
      subst hrg
      have hst2 : w2.managers (keyOf stored) = some refetched := by
        rw [hw2, record_managers]; exact hst1
      apply KeepsToken.through_ok (v := w2) (c := .get (keyOf stored)) (by rw [hw2]; rfl)
      split
      · rename_i err w3 hsu2
        have hw3 := clientStatusUpdate_inv_error hsu2
        subst hw3
        exact KeepsToken.fail_statusUpdate _ _ _ refetched _ _ hst2 hfin1
      · rename_i updated w3 hsu2
        obtain ⟨_, _, _, hw3⟩ := clientStatusUpdate_inv_ok hsu2
        apply KeepsToken.through_ok (v := w3) (c := .statusUpdate (withCondition w2.now refetched
          (finalizedCondition refetched.Name))) (by rw [hw3]; rfl)
        split
        · exact KeepsToken.no_call _ _ _
        · split
          · rename_i err w4 hup
            have hw4 := clientUpdate_inv_error hup
            subst hw4
            exact KeepsToken.fail_update _ _ _ _ _
          · rename_i g4 w4 hup
            obtain ⟨_, _, _, hw4⟩ := clientUpdate_inv_ok hup
            subst hw4
            exact KeepsToken.last_ok _ _ _ _ _

theorem reconcileFinalizer_keeps (r : GenezioManagerReconciler) (gm : GenezioManager)
    (w : World) (hst : w.managers (keyOf gm) = some gm)
    (hdel : gm.DeletionTimestamp.isSome = true)
    (hfin : containsFinalizer gm geneziomanagerFinalizer = true) :
    KeepsToken (keyOf gm) w.calls (reconcileFinalizer r (keyOf gm) gm w) := by
  rw [reconcileFinalizer_present _ _ _ _ hfin]
  unfold reconcileMarked
  simp only [hdel, if_true]
  exact reconcileDelete_keeps gm w hst hfin

theorem Reconcile_keeps (r : GenezioManagerReconciler) (gm : GenezioManager) (w : World)
    (hst : w.managers (keyOf gm) = some gm)
    (hdel : gm.DeletionTimestamp.isSome = true)
    (hfin : containsFinalizer gm geneziomanagerFinalizer = true) :
    KeepsToken (keyOf gm) w.calls (Reconcile r (keyOf gm) w) := by
  unfold Reconcile
  split
  · rename_i err w1 hget
    have hw1 := clientGet_inv_error hget
    subst hw1
    exact KeepsToken.fail_get _ _ _ _ _
  · rename_i obj w1 hget
    obtain ⟨ho, hw1⟩ := clientGet_inv_ok hget
    have hog : obj = gm := by
      rw [hst] at ho
      exact (Option.some.inj ho).symm
    subst hog
    have hst1 : w1.managers (keyOf obj) = some obj := by
      rw [hw1, record_managers]; exact hst
    apply KeepsToken.through_ok (v := w1) (c := .get (keyOf obj)) (by rw [hw1]; rfl)
    split
    · split
      · rename_i err w2 hsu
        have hw2 := clientStatusUpdate_inv_error hsu
        subst hw2
        exact KeepsToken.fail_statusUpdate _ _ _ obj _ _ hst1 hfin
      · rename_i g w2 hsu
        obtain ⟨stored, hs, hg, hw2⟩ := clientStatusUpdate_inv_ok hsu
        have hsg : stored = obj := by
          have : w1.managers (keyOf obj) = some stored := hs
          rw [hst1] at this
          exact (Option.some.inj this).symm
        subst hsg
        have hst2 : w2.managers (keyOf stored) = some g := by
          rw [hw2, record_managers, hg]
          exact put_managers_same _ _
        apply KeepsToken.through_ok (v := w2)
          (c := .statusUpdate (withCondition w1.now stored startingCondition))
          (by rw [hw2]; rfl)
        split
        · rename_i err w3 hget2
          have hw3 := clientGet_inv_error hget2
          subst hw3
          exact KeepsToken.fail_get _ _ _ _ _
        · rename_i refetched w3 hget2
          obtain ⟨hr, hw3⟩ := clientGet_inv_ok hget2
          have hrg : refetched = g := by
            rw [hst2] at hr
            exact (Option.some.inj hr).symm
          subst hrg
          have hkey : keyOf refetched = keyOf stored := by rw [hg]; rfl
          have hst3 : w3.managers (keyOf refetched) = some refetched := by
            rw [hkey, hw3, record_managers]; exact hst2
          apply KeepsToken.through_ok (v := w3) (c := .get (keyOf stored)) (by rw [hw3]; rfl)
          have := reconcileFinalizer_keeps r refetched w3 hst3 (by rw [hg]; exact hdel)
            (by rw [hg]; exact hfin)
          rw [hkey] at this
          exact this
    · exact reconcileFinalizer_keeps r obj w1 hst1 hdel hfin

/-! ### C1: the environment list -/

/-- C1. When synthesis succeeds, the image variable is set and the Deployment has a single
container whose environment list has exactly 14 entries: REGION, DOMAIN, CHART_REPO,
CHART_TARGET_REVISION, DEPLOYMENT_REPO_NAME, ARGOCD_URL, ARGOCD_TOKEN, REGISTRY_URL,
REGISTRY_USER, REGISTRY_PASSWORD, GIT_USER, GIT_URL, GIT_PASSWORD, GIT_TOKEN, in this order,
with the values of the spec fields (the constant "local" for DOMAIN, the provider-dispatched
values for the four git entries). An empty spec field is an entry with the empty string. -/
theorem deployment_env_list (r : GenezioManagerReconciler) (env : Environ)
    (gm : GenezioManager) (dep : Deployment)
    (h : deploymentForGenezioManager r env gm = .val dep) :
    (∃ image, env "GENEZIO_MANAGER_IMAGE" = some image) ∧
    ∃ c, dep.Spec.Template.Spec.Containers = [c] ∧
      c.Env.length = 14 ∧
      c.Env =
        [⟨"REGION", gm.Spec.Region⟩,
         ⟨"DOMAIN", "local"⟩,
         ⟨"CHART_REPO", gm.Spec.ChartRepo⟩,
         ⟨"CHART_TARGET_REVISION", gm.Spec.ChartRev⟩,
         ⟨"DEPLOYMENT_REPO_NAME", gm.Spec.GitConfig.DeployementRepoName⟩,
         ⟨"ARGOCD_URL", gm.Spec.ArgoCDConfig.URL⟩,
         ⟨"ARGOCD_TOKEN", gm.Spec.ArgoCDConfig.Password⟩,
         ⟨"REGISTRY_URL", gm.Spec.ContainerRegistryConfig.URL⟩,
         ⟨"REGISTRY_USER", gm.Spec.ContainerRegistryConfig.Username⟩,
         ⟨"REGISTRY_PASSWORD", gm.Spec.ContainerRegistryConfig.Password⟩,
         ⟨"GIT_USER", (gitValues gm.Spec).1⟩,
         ⟨"GIT_URL", (gitValues gm.Spec).2.1⟩,
         ⟨"GIT_PASSWORD", (gitValues gm.Spec).2.2.1⟩,
         ⟨"GIT_TOKEN", (gitValues gm.Spec).2.2.2⟩] := by
  obtain ⟨c, hc, henv⟩ := deploymentForGenezioManager_env r env gm dep h
  exact ⟨deploymentForGenezioManager_image r env gm dep h, c, hc, by rw [henv]; rfl, henv⟩

/-- C1 at a concrete input: a spec in which only the region is set synthesizes 14 entries. -/
theorem deployment_env_list_witness :
    deploymentForGenezioManager exampleReconciler (exampleEnviron (some "genezio/manager:1.2"))
        unknownProviderManager = .val unknownProviderDeployment ∧
    ∃ c, unknownProviderDeployment.Spec.Template.Spec.Containers = [c] ∧ c.Env.length = 14 ∧
      c.Env.map (fun e => e.Value) =
        ["eu-central-1", "local", "", "", "", "", "", "", "", "", "", "", "", ""] :=
  ⟨rfl, by
    obtain ⟨_, c, h1, h2, h3⟩ := deployment_env_list exampleReconciler
      (exampleEnviron (some "genezio/manager:1.2")) unknownProviderManager
      unknownProviderDeployment rfl
    exact ⟨c, h1, h2, by rw [h3]; rfl⟩⟩

/-! ### C2: the deletion sequence -/

/-- C2 as stated fails: a resource with the deletion marker and the finalizer token that has no
status condition yet gets four writes, the first of them the status update of the first block
(Available=Unknown, no Degraded condition), before the three writes of the deletion sequence. -/
theorem deletion_pass_of_uninitialized_resource :
    deletingUninitializedManager.DeletionTimestamp.isSome = true ∧
    containsFinalizer deletingUninitializedManager geneziomanagerFinalizer = true ∧
    digestOf (writesOf (Reconcile exampleReconciler (keyOf deletingUninitializedManager)
        (exampleWorld deletingUninitializedManager none (some "genezio/manager:1.2"))).2.calls) =
      [(.statusUpdate [("Available", .ConditionUnknown, "Reconciling")], none),
       (.statusUpdate [("Available", .ConditionUnknown, "Reconciling"),
          ("Degraded", .ConditionUnknown, "Finalizing")], none),
       (.statusUpdate [("Available", .ConditionUnknown, "Reconciling"),
          ("Degraded", .ConditionTrue, "Finalizing")], none),
       (.update [], none)] := by
  decide

/-- C2 (amended). For every stored resource that has the deletion marker set and the finalizer
token present, a pass in which every store call succeeds issues, after the fetch (and, only
when the resource has no status condition yet, after the status update of Available=Unknown
and the refetch of the first block), exactly these writes in this order: a status update in
which Degraded is Unknown with reason "Finalizing", then after a refetch a status update in
which Degraded is True with reason "Finalizing", then a resource update whose finalizer list
no longer contains the token. No Deployment is created and the pass returns no requeue and no
error. -/
theorem deletion_pass_writes (r : GenezioManagerReconciler) (w : World) (gm : GenezioManager)
    (hlog : w.calls = []) (hnf : w.noFaults) (hst : w.managers (keyOf gm) = some gm)
    (hdel : gm.DeletionTimestamp.isSome = true)
    (hfin : containsFinalizer gm geneziomanagerFinalizer = true) :
    ∃ u0 u1 u2 u3,
      (Reconcile r (keyOf gm) w).2.calls =
        (if gm.Status.Conditions.length = 0 then
          [(Call.get (keyOf gm), none), (Call.statusUpdate u0, none), (Call.get (keyOf gm), none)]
         else [(Call.get (keyOf gm), none)]) ++
        [(.statusUpdate u1, none), (.get (keyOf gm), none), (.statusUpdate u2, none),
         (.update u3, none)] ∧
      writesOf (Reconcile r (keyOf gm) w).2.calls =
        (if gm.Status.Conditions.length = 0 then [(Call.statusUpdate u0, none)] else []) ++
        [(.statusUpdate u1, none), (.statusUpdate u2, none), (.update u3, none)] ∧
      hasCondition u0 typeAvailableGenezioManager .ConditionUnknown "Reconciling" ∧
      hasCondition u1 typeDegradedGenezioManager .ConditionUnknown "Finalizing" ∧
      hasCondition u2 typeDegradedGenezioManager .ConditionTrue "Finalizing" ∧
      containsFinalizer u3 geneziomanagerFinalizer = false ∧
      (Reconcile r (keyOf gm) w).1 = .returned {} none := by
  obtain ⟨w1, g, hrun, hres, hcalls, hfins⟩ :=
    Reconcile_enters r w gm (quiet_of_noFaults w hnf) hst
  have hfin1 : containsFinalizer g geneziomanagerFinalizer = true := by
    simpa [containsFinalizer, hfins] using hfin
  have hdel1 : g.DeletionTimestamp.isSome = true := by rw [hres.deletion]; exact hdel
  obtain ⟨h1, h2, _⟩ := reconcileDelete_run w1 g hres.quiet hres.stored_self hfin1
  rw [hres.key] at h1 h2
  have hrun2 : Reconcile r (keyOf gm) w = reconcileDelete (keyOf gm) g w1 := by
    rw [hrun, reconcileFinalizer_present _ _ _ _ hfin1]
    simp [reconcileMarked, hdel1]
  rw [hrun2, h1, h2, hcalls, hlog]
  refine ⟨withCondition w.now gm startingCondition,
    withCondition w1.now g (finalizingCondition g.Name),
    withCondition w1.now (withCondition w1.now g (finalizingCondition g.Name))
      (finalizedCondition g.Name),
    { withCondition w1.now (withCondition w1.now g (finalizingCondition g.Name))
        (finalizedCondition g.Name) with
      Finalizers := g.Finalizers.filter (fun f => f != geneziomanagerFinalizer) },
    ?_, ?_, hasCondition_withCondition _ _ _, hasCondition_withCondition _ _ _,
    hasCondition_withCondition _ _ _, ?_, rfl⟩
  · simp
  · by_cases hcond : gm.Status.Conditions.length = 0 <;> simp [hcond, writesOf, Call.isWrite]
  · simp [containsFinalizer]

/-- C2 (amended) at a concrete input: a resource being deleted that already has conditions. -/
theorem deletion_pass_writes_witness :
    (exampleWorld deletingManager none (some "genezio/manager:1.2")).calls = [] ∧
    (exampleWorld deletingManager none (some "genezio/manager:1.2")).noFaults ∧
    (exampleWorld deletingManager none (some "genezio/manager:1.2")).managers
      (keyOf deletingManager) = some deletingManager ∧
    deletingManager.DeletionTimestamp.isSome = true ∧
    containsFinalizer deletingManager geneziomanagerFinalizer = true ∧
    (Reconcile exampleReconciler (keyOf deletingManager)
      (exampleWorld deletingManager none (some "genezio/manager:1.2"))).1 = .returned {} none := by
  refine ⟨rfl, fun _ _ => rfl, rfl, rfl, rfl, ?_⟩
  obtain ⟨_, _, _, _, _, _, _, _, _, _, h⟩ := deletion_pass_writes exampleReconciler
    (exampleWorld deletingManager none (some "genezio/manager:1.2")) deletingManager
    rfl (fun _ _ => rfl) rfl rfl rfl
  exact h

/-! ### C3: the steady state -/

/-- C3 as stated fails: a pass on a resource in the Active steady state (finalizer present,
Deployment present, Available=True recorded) issues a status update. -/
theorem steady_state_writes_status :
    activeManager.DeletionTimestamp = none ∧
    containsFinalizer activeManager geneziomanagerFinalizer = true ∧
    (exampleWorld activeManager (some activeDeployment) (some "genezio/manager:1.2")).deployments
      (keyOf activeManager) = some activeDeployment ∧
    activeManager.Status.Conditions = [availableTrue] ∧
    writesOf (Reconcile exampleReconciler (keyOf activeManager)
        (exampleWorld activeManager (some activeDeployment)
          (some "genezio/manager:1.2"))).2.calls ≠ [] ∧
    digestOf (writesOf (Reconcile exampleReconciler (keyOf activeManager)
        (exampleWorld activeManager (some activeDeployment)
          (some "genezio/manager:1.2"))).2.calls) =
      [(.statusUpdate [("Available", .ConditionTrue, "Reconciling")], none)] := by
  decide

/-- C3 (amended). For every stored resource already in the Active steady state (no deletion
marker, finalizer token present, owned Deployment present, conditions already containing
Available=True), a further pass in which every store call succeeds makes three store calls: the
fetch, the read of the Deployment, and one write, a status update that carries Available=True
with reason "Reconciling". It issues no resource update and no create, and returns no requeue
and no error. -/
theorem steady_state_pass (r : GenezioManagerReconciler) (w : World) (gm : GenezioManager)
    (found : Deployment)
    (hlog : w.calls = []) (hnf : w.noFaults) (hst : w.managers (keyOf gm) = some gm)
    (hdel : gm.DeletionTimestamp = none)
    (hfin : containsFinalizer gm geneziomanagerFinalizer = true)
    (hdep : w.deployments (keyOf gm) = some found)
    (havail : ∃ reason, hasCondition gm typeAvailableGenezioManager .ConditionTrue reason) :
    ∃ u,
      (Reconcile r (keyOf gm) w).2.calls =
        [(.get (keyOf gm), none), (.getDeployment (keyOf gm), none), (.statusUpdate u, none)] ∧
      writesOf (Reconcile r (keyOf gm) w).2.calls = [(.statusUpdate u, none)] ∧
      u = withCondition w.now gm (createdCondition gm.Name) ∧
      hasCondition u typeAvailableGenezioManager .ConditionTrue "Reconciling" ∧
      (Reconcile r (keyOf gm) w).1 = .returned {} none := by
  have hq := quiet_of_noFaults w hnf
  have hcond : gm.Status.Conditions.length ≠ 0 := by
    obtain ⟨_, c, hc, _⟩ := havail
    intro h0
    have : gm.Status.Conditions = [] := List.length_eq_zero.mp h0
    rw [this] at hc
    simp [findStatusCondition] at hc
  have hdel1 : gm.DeletionTimestamp.isSome = false := by simp [hdel]
  have hrun : Reconcile r (keyOf gm) w =
      reconcileDeployment r gm (w.record (.get (keyOf gm)) none) := by
    rw [Reconcile_initialized r w gm hq hst hcond, reconcileFinalizer_present _ _ _ _ hfin]
    simp [reconcileMarked, hdel1]
  obtain ⟨h1, h2, _⟩ := reconcileDeployment_present r (w.record (.get (keyOf gm)) none) gm found
    (quiet_record _ _ _ hq) hst hdep
  rw [hrun, h1, h2]
  refine ⟨_, ?_, ?_, rfl, hasCondition_withCondition _ _ _, rfl⟩
  · simp [hlog]
  · simp [hlog, writesOf, Call.isWrite]

/-- C3 (amended) at a concrete input. -/
theorem steady_state_pass_witness :
    (exampleWorld activeManager (some activeDeployment) (some "genezio/manager:1.2")).calls = [] ∧
    (exampleWorld activeManager (some activeDeployment) (some "genezio/manager:1.2")).noFaults ∧
    hasCondition activeManager typeAvailableGenezioManager .ConditionTrue "Reconciling" ∧
    (Reconcile exampleReconciler (keyOf activeManager)
      (exampleWorld activeManager (some activeDeployment)
        (some "genezio/manager:1.2"))).1 = .returned {} none := by
  have hav : hasCondition activeManager typeAvailableGenezioManager .ConditionTrue
      "Reconciling" := ⟨availableTrue, rfl, rfl, rfl⟩
  refine ⟨rfl, fun _ _ => rfl, hav, ?_⟩
  obtain ⟨_, _, _, _, _, h⟩ := steady_state_pass exampleReconciler
    (exampleWorld activeManager (some activeDeployment) (some "genezio/manager:1.2"))
    activeManager activeDeployment rfl (fun _ _ => rfl) rfl rfl rfl rfl ⟨_, hav⟩
  exact h

/-! ### C4: the missing image -/

/-- C4 as stated fails: with the image variable unset, the Available=False condition that is
persisted has the reason "Reconciling"; the missing prerequisite is named by its message. -/
theorem missing_image_reason_is_reconciling :
    digestOf (writesOf (Reconcile exampleReconciler (keyOf activeManager)
        (exampleWorld activeManager none none)).2.calls) =
      [(.statusUpdate [("Available", .ConditionFalse, "Reconciling")], none)] ∧
    (Reconcile exampleReconciler (keyOf activeManager)
        (exampleWorld activeManager none none)).1 =
      .returned {} (some { Message :=
        "unable to find GENEZIO_MANAGER_IMAGE environment variable with the image" }) := by
  decide

/-- C4 (amended). When GENEZIO_MANAGER_IMAGE is unset, for every stored resource that is not
being deleted and has no existing Deployment, a pass in which every store call succeeds ends
with a status update that sets the Available condition to False with the reason "Reconciling"
and a message that carries the text of the synthesis error, which names the missing variable;
the status is persisted, no Create call is issued, and the pass returns the synthesis error
(the error of imageForGenezioManager). -/
theorem missing_image_pass (r : GenezioManagerReconciler) (w : World) (gm : GenezioManager)
    (hlog : w.calls = []) (hnf : w.noFaults) (hst : w.managers (keyOf gm) = some gm)
    (hdel : gm.DeletionTimestamp = none)
    (hdep : w.deployments (keyOf gm) = none)
    (himg : w.environ "GENEZIO_MANAGER_IMAGE" = none) :
    ∃ pre u c,
      (Reconcile r (keyOf gm) w).2.calls = pre ++ [(.statusUpdate u, none)] ∧
      findStatusCondition u.Status.Conditions typeAvailableGenezioManager = some c ∧
      c.Status = .ConditionFalse ∧ c.Reason = "Reconciling" ∧
      c.Message = "Failed to create Deployment for the custom resource (" ++ gm.Name ++
        "): (" ++ "unable to find GENEZIO_MANAGER_IMAGE environment variable with the image" ++
        ")" ∧
      (∃ stored, (Reconcile r (keyOf gm) w).2.managers (keyOf gm) = some stored ∧
        stored.Status = u.Status) ∧
      (∀ x ∈ (Reconcile r (keyOf gm) w).2.calls, x.1.isCreate = false) ∧
      imageForGenezioManager w.environ = .error { Message :=
        "unable to find GENEZIO_MANAGER_IMAGE environment variable with the image" } ∧
      (Reconcile r (keyOf gm) w).1 = .returned {} (some { Message :=
        "unable to find GENEZIO_MANAGER_IMAGE environment variable with the image" }) := by
  obtain ⟨w1, g, hrun, hres, hcalls, _⟩ :=
    Reconcile_enters r w gm (quiet_of_noFaults w hnf) hst
  obtain ⟨w2, g2, hrun2, hres2, _, _, hcalls2, _⟩ :=
    reconcileFinalizer_enters r (keyOf gm) w1 g hres.quiet hres.stored_self
  have hres3 := hres.trans hres2
  have hdel2 : g2.DeletionTimestamp.isSome = false := by simp [hres3.deletion, hdel]
  have hsyn : deploymentForGenezioManager r w2.environ g2 = .err { Message :=
      "unable to find GENEZIO_MANAGER_IMAGE environment variable with the image" } :=
    deploymentForGenezioManager_err_of_unset r _ _ (by rw [hres3.environ]; exact himg)
  obtain ⟨h1, h2, h3⟩ := reconcileDeployment_synthesis_error r w2 g2 _ hres3.quiet
    hres3.stored_self (by rw [hres3.key, hres3.deployments]; exact hdep) hsyn
  have hrun3 : Reconcile r (keyOf gm) w = reconcileDeployment r g2 w2 := by
    rw [hrun, hrun2]
    simp [reconcileMarked, hdel2]
  obtain ⟨c, hc1, hc2, hc3, hc4⟩ := find_setStatusCondition w2.now
    (failedCondition g2.Name { Message :=
      "unable to find GENEZIO_MANAGER_IMAGE environment variable with the image" })
    g2.Status.Conditions
  rw [hres3.key] at h3
  rw [hrun3, h1, h2, h3]
  refine ⟨w2.calls ++ [(Call.getDeployment (keyOf g2), some (notFoundError (keyOf g2)))], _, c,
    by simp, hc1, hc2, hc3, ?_, ⟨_, rfl, rfl⟩, ?_, ?_, rfl⟩
  · rw [hc4, ← hres3.name]; rfl
  · apply forall_of_all
    rw [hcalls2, hcalls, hlog]
    by_cases hc0 : gm.Status.Conditions.length = 0 <;>
      by_cases hf0 : containsFinalizer g geneziomanagerFinalizer = true <;>
      simp [hc0, hf0, Call.isCreate]
  · simp [imageForGenezioManager, himg]

/-- C4 (amended) at a concrete input: a new resource and no image variable. -/
theorem missing_image_pass_witness :
    (exampleWorld freshManager none none).calls = [] ∧
    (exampleWorld freshManager none none).noFaults ∧
    (exampleWorld freshManager none none).managers (keyOf freshManager) = some freshManager ∧
    freshManager.DeletionTimestamp = none ∧
    (exampleWorld freshManager none none).deployments (keyOf freshManager) = none ∧
    (exampleWorld freshManager none none).environ "GENEZIO_MANAGER_IMAGE" = none ∧
    (Reconcile exampleReconciler (keyOf freshManager) (exampleWorld freshManager none none)).1 =
      .returned {} (some { Message :=
        "unable to find GENEZIO_MANAGER_IMAGE environment variable with the image" }) := by
  refine ⟨rfl, fun _ _ => rfl, rfl, rfl, rfl, rfl, ?_⟩
  obtain ⟨_, _, _, _, _, _, _, _, _, _, _, h⟩ := missing_image_pass exampleReconciler
    (exampleWorld freshManager none none) freshManager rfl (fun _ _ => rfl) rfl rfl rfl rfl
  exact h

/-! ### C5: the provider switch -/

/-- C5 as stated fails: with the image variable set and an unrecognized provider, synthesis
returns an error when the scheme has no kind for the owner, and panics when the image reference
has no ':'. -/
theorem unknown_provider_synthesis_not_always_ok :
    unknownProviderManager.Spec.GitConfig.Provider = "unknown" ∧
    deploymentForGenezioManager bareReconciler (exampleEnviron (some "genezio/manager:1.2"))
        unknownProviderManager =
      .err { Message := "no kind is registered for the type v1alpha1.GenezioManager" } ∧
    deploymentForGenezioManager exampleReconciler (exampleEnviron (some "genezio-manager"))
        unknownProviderManager = .panicked (Panic.indexOutOfRange 1 1) :=
  ⟨rfl, rfl, rfl⟩

/-- C5 (amended). With the image variable set to a reference that contains ':' and a scheme
that has the GenezioManager kind, synthesis succeeds whatever the provider and the Gitea block
are; the values of GIT_USER, GIT_URL, GIT_PASSWORD and GIT_TOKEN are all empty when the
provider is not "gitea", and are Gitea.Username, Gitea.URL, Gitea.Password and Gitea.Token when
it is. -/
theorem git_values_by_provider (r : GenezioManagerReconciler) (env : Environ)
    (gm : GenezioManager) (image : String)
    (himg : env "GENEZIO_MANAGER_IMAGE" = some image) (htag : ':' ∈ image.data)
    (hkind : r.Scheme.GenezioManagerKind.isSome = true) :
    ∃ dep c, deploymentForGenezioManager r env gm = .val dep ∧
      dep.Spec.Template.Spec.Containers = [c] ∧
      (gm.Spec.GitConfig.Provider ≠ "gitea" →
        envValue c.Env "GIT_USER" = some "" ∧ envValue c.Env "GIT_URL" = some "" ∧
        envValue c.Env "GIT_PASSWORD" = some "" ∧ envValue c.Env "GIT_TOKEN" = some "") ∧
      (gm.Spec.GitConfig.Provider = "gitea" →
        envValue c.Env "GIT_USER" = some gm.Spec.GitConfig.Gitea.Username ∧
        envValue c.Env "GIT_URL" = some gm.Spec.GitConfig.Gitea.URL ∧
        envValue c.Env "GIT_PASSWORD" = some gm.Spec.GitConfig.Gitea.Password ∧
        envValue c.Env "GIT_TOKEN" = some gm.Spec.GitConfig.Gitea.Token) := by
  obtain ⟨dep, hdep⟩ := deploymentForGenezioManager_ok r env gm image himg htag hkind
  obtain ⟨c, hc, henv⟩ := deploymentForGenezioManager_env r env gm dep hdep
  refine ⟨dep, c, hdep, hc, ?_, ?_⟩
  · intro hp
    rw [henv]
    simp [envValue, expectedEnv, gitValues, hp]
  · intro hp
    rw [henv]
    simp [envValue, expectedEnv, gitValues, hp]

/-- C5 (amended) at a concrete input: provider "unknown" with a filled Gitea block. -/
theorem git_values_by_provider_witness :
    exampleEnviron (some "genezio/manager:1.2") "GENEZIO_MANAGER_IMAGE" =
        some "genezio/manager:1.2" ∧
    ':' ∈ ("genezio/manager:1.2" : String).data ∧
    exampleReconciler.Scheme.GenezioManagerKind.isSome = true ∧
    unknownProviderManager.Spec.GitConfig.Provider ≠ "gitea" ∧
    unknownProviderManager.Spec.GitConfig.Gitea.Token = "tok" ∧
    ∃ dep c, deploymentForGenezioManager exampleReconciler
        (exampleEnviron (some "genezio/manager:1.2")) unknownProviderManager = .val dep ∧
      dep.Spec.Template.Spec.Containers = [c] ∧
      envValue c.Env "GIT_USER" = some "" ∧ envValue c.Env "GIT_URL" = some "" ∧
      envValue c.Env "GIT_PASSWORD" = some "" ∧ envValue c.Env "GIT_TOKEN" = some "" := by
  refine ⟨rfl, by decide, rfl, by decide, rfl, ?_⟩
  obtain ⟨dep, c, h1, h2, h3, _⟩ := git_values_by_provider exampleReconciler
    (exampleEnviron (some "genezio/manager:1.2")) unknownProviderManager "genezio/manager:1.2"
    rfl (by decide) rfl
  exact ⟨dep, c, h1, h2, h3 (by decide)⟩

/-! ### C6: the version label -/

/-- C6. The code at the failing inputs: an image reference without ':' makes
labelsForGenezioManager panic on the index expression (index 1 of a slice of length 1) instead
of giving the empty version; and a reference with two ':' gets as version the piece between the
first and the second ':', not the whole substring after the first. -/
theorem labels_version_failing_inputs :
    labelsForGenezioManager (exampleEnviron (some "genezio-manager")) "manager" =
      .error (Panic.indexOutOfRange 1 1) ∧
    labelsForGenezioManager (exampleEnviron (some "registry.local:5000/genezio-manager:1.2"))
        "manager" = .ok (labelMap "manager" "5000/genezio-manager") :=
  ⟨rfl, rfl⟩

/-! ### C7: a resource without status conditions -/

/-- C7 as stated fails: on a new resource (no status condition, no finalizer token, not being
deleted, no Deployment) the pass does not stop after the refetch: in the same pass it adds the
finalizer token, persists it, creates the Deployment, and returns requeue-after one minute, not
the requeue-now directive. -/
theorem fresh_resource_goes_on :
    freshManager.Status.Conditions = [] ∧
    digestOf (Reconcile exampleReconciler (keyOf freshManager)
        (exampleWorld freshManager none (some "genezio/manager:1.2"))).2.calls =
      [(.get, none),
       (.statusUpdate [("Available", .ConditionUnknown, "Reconciling")], none),
       (.get, none),
       (.update ["finalizer.init.genezio.com"], none),
       (.getDeployment, some "genezio/manager not found"),
       (.create "genezio" "manager", none)] ∧
    (Reconcile exampleReconciler (keyOf freshManager)
        (exampleWorld freshManager none (some "genezio/manager:1.2"))).1 =
      .returned { Requeue := false, RequeueAfter := 60000000000 } none ∧
    (Reconcile exampleReconciler (keyOf freshManager)
        (exampleWorld freshManager none (some "genezio/manager:1.2"))).1 ≠
      .returned { Requeue := true } none := by
  decide

/-- C7 (amended). For every stored resource whose status holds no conditions, a pass in which
every store call succeeds upserts Available=Unknown with reason "Reconciling", persists the
status and refetches the resource, and then, without returning, goes on in the same pass with
the later steps of the state machine on the refetched resource; it never returns the
requeue-now directive. The later steps are, call by call:
* for a resource being deleted that holds the finalizer token, the deletion sequence (status
  update with Degraded Unknown, refetch, status update with Degraded True, resource update
  without the token) and an empty result;
* for a resource that is not being deleted, first the resource update that adds the finalizer
  token when the token is missing, then the read of the Deployment, and then: when the
  Deployment is there, a status update with Available=True and an empty result; when it is not
  there and synthesis succeeds, the Create of the synthesized Deployment and requeue-after one
  minute; when synthesis fails with an error, a status update with Available=False and that
  error; when synthesis panics, the panic. -/
theorem uninitialized_pass (r : GenezioManagerReconciler) (w : World) (gm : GenezioManager)
    (hlog : w.calls = []) (hnf : w.noFaults) (hst : w.managers (keyOf gm) = some gm)
    (hcond : gm.Status.Conditions = []) :
    ∃ u0 w1 rest,
      u0 = withCondition w.now gm startingCondition ∧
      hasCondition u0 typeAvailableGenezioManager .ConditionUnknown "Reconciling" ∧
      w1.calls = [(.get (keyOf gm), none), (.statusUpdate u0, none), (.get (keyOf gm), none)] ∧
      w1.managers (keyOf gm) = some u0 ∧
      Reconcile r (keyOf gm) w = reconcileFinalizer r (keyOf gm) u0 w1 ∧
      (Reconcile r (keyOf gm) w).2.calls = w1.calls ++ rest ∧ rest ≠ [] ∧
      (Reconcile r (keyOf gm) w).1.requeueNow = false ∧
      (gm.DeletionTimestamp.isSome = true →
        containsFinalizer gm geneziomanagerFinalizer = true →
        ∃ u1 u2 u3,
          rest = [(.statusUpdate u1, none), (.get (keyOf gm), none), (.statusUpdate u2, none),
            (.update u3, none)] ∧
          hasCondition u1 typeDegradedGenezioManager .ConditionUnknown "Finalizing" ∧
          hasCondition u2 typeDegradedGenezioManager .ConditionTrue "Finalizing" ∧
          containsFinalizer u3 geneziomanagerFinalizer = false ∧
          (Reconcile r (keyOf gm) w).1 = .returned {} none) ∧
      (gm.DeletionTimestamp = none →
        ∃ g added,
          added = (if containsFinalizer gm geneziomanagerFinalizer = true then []
                   else [(Call.update g, none)]) ∧
          g.Finalizers = (if containsFinalizer gm geneziomanagerFinalizer = true
                          then gm.Finalizers
                          else gm.Finalizers ++ [geneziomanagerFinalizer]) ∧
          (∀ found, w.deployments (keyOf gm) = some found →
            ∃ u, rest = added ++ [(.getDeployment (keyOf gm), none), (.statusUpdate u, none)] ∧
              hasCondition u typeAvailableGenezioManager .ConditionTrue "Reconciling" ∧
              (Reconcile r (keyOf gm) w).1 = .returned {} none) ∧
          (w.deployments (keyOf gm) = none →
            (∀ dep, deploymentForGenezioManager r w.environ gm = .val dep →
              rest = added ++ [(.getDeployment (keyOf gm), some (notFoundError (keyOf gm))),
                (.create dep, none)] ∧
              (Reconcile r (keyOf gm) w).1 =
                .returned { Requeue := false, RequeueAfter := timeMinute } none) ∧
            (∀ derr, deploymentForGenezioManager r w.environ gm = .err derr →
              ∃ u, rest = added ++
                  [(.getDeployment (keyOf gm), some (notFoundError (keyOf gm))),
                   (.statusUpdate u, none)] ∧
                hasCondition u typeAvailableGenezioManager .ConditionFalse "Reconciling" ∧
                (Reconcile r (keyOf gm) w).1 = .returned {} (some derr)) ∧
            (∀ p, deploymentForGenezioManager r w.environ gm = .panicked p →
              rest = added ++
                [(.getDeployment (keyOf gm), some (notFoundError (keyOf gm)))] ∧
              (Reconcile r (keyOf gm) w).1 = .panicked p))) := by
  have hq := quiet_of_noFaults w hnf
  have hlen : gm.Status.Conditions.length = 0 := by simp [hcond]
  have hrun := Reconcile_uninitialized r w gm hq hst hlen
  obtain ⟨w1, hw1⟩ : ∃ w1 : World, w1 =
      ((((w.record (.get (keyOf gm)) none).put (withCondition w.now gm startingCondition)).record
        (.statusUpdate (withCondition w.now gm startingCondition)) none).record
        (.get (keyOf gm)) none) := ⟨_, rfl⟩
  rw [← hw1] at hrun
  have hq1 : w1.quiet := by rw [hw1]; exact hq
  have hst1 : w1.managers (keyOf gm) = some (withCondition w.now gm startingCondition) := by
    rw [hw1, record_managers, record_managers]
    exact put_managers_same _ _
  have hcalls1 : w1.calls =
      [(.get (keyOf gm), none),
       (.statusUpdate (withCondition w.now gm startingCondition), none),
       (.get (keyOf gm), none)] := by
    rw [hw1]
    simp [hlog]
  have hres1 : Resumes w gm w1 (withCondition w.now gm startingCondition) :=
    { quiet := hq1
      stored := hst1
      name := rfl, ns := rfl, uid := rfl, spec := rfl, deletion := rfl
      deployments := by rw [hw1]; rfl
      environ := by rw [hw1]; rfl
      now := by rw [hw1]; rfl
      faults := by rw [hw1]; rfl }
  obtain ⟨h1, ⟨c, rest0, h2⟩, _⟩ := reconcileFinalizer_progress r w1
    (withCondition w.now gm startingCondition) hq1 hst1
  rw [keyOf_withCondition] at h1 h2
  obtain ⟨w2, g2, hrun2, hres2, hfin2, _, hcalls2, hfins2⟩ :=
    reconcileFinalizer_enters r (keyOf gm) w1 (withCondition w.now gm startingCondition)
      hq1 hst1
  have hres := hres1.trans hres2
  have hrunM : Reconcile r (keyOf gm) w = reconcileMarked r (keyOf gm) g2 w2 := by
    rw [hrun, hrun2]
  have hrest : (Reconcile r (keyOf gm) w).2.calls = w1.calls ++ c :: rest0 := by
    rw [hrun, h2]
  have hfaults : ∀ n k, w2.faults n k = none := by
    intro n k
    rw [hres.faults]
    exact hnf n k
  refine ⟨_, w1, c :: rest0, rfl, hasCondition_withCondition _ _ _, hcalls1, hst1, hrun,
    hrest, by simp, by rw [hrun, h1], ?_, ?_⟩
  · intro hdel hfin
    have hfin0 : containsFinalizer (withCondition w.now gm startingCondition)
        geneziomanagerFinalizer = true := hfin
    have hdel2 : g2.DeletionTimestamp.isSome = true := by rw [hres.deletion]; exact hdel
    obtain ⟨k1, k2, _⟩ := reconcileDelete_run w2 g2 hres.quiet hres.stored_self hfin2
    rw [hres.key] at k1 k2
    have hrunD : Reconcile r (keyOf gm) w = reconcileDelete (keyOf gm) g2 w2 := by
      rw [hrunM]
      simp [reconcileMarked, hdel2]
    have hc2 : w2.calls = w1.calls := by
      rw [hcalls2]
      simp [hfin0]
    rw [hrunD, k2, hc2] at hrest
    refine ⟨_, _, _, (List.append_cancel_left hrest).symm, hasCondition_withCondition _ _ _,
      hasCondition_withCondition _ _ _, ?_, by rw [hrunD, k1]⟩
    simp [containsFinalizer]
  · intro hnd
    have hdel2 : g2.DeletionTimestamp.isSome = false := by simp [hres.deletion, hnd]
    have hrunD : Reconcile r (keyOf gm) w = reconcileDeployment r g2 w2 := by
      rw [hrunM]
      simp [reconcileMarked, hdel2]
    have hsyn2 := hres.synthesis r
    refine ⟨g2, _, rfl, hfins2, ?_, ?_⟩
    · intro found hdep
      obtain ⟨k1, k2, _⟩ := reconcileDeployment_present r w2 g2 found hres.quiet
        hres.stored_self (by rw [hres.key, hres.deployments]; exact hdep)
      rw [hres.key] at k2
      rw [hrunD, k2, hcalls2, List.append_assoc] at hrest
      exact ⟨_, (List.append_cancel_left hrest).symm, hasCondition_withCondition _ _ _,
        by rw [hrunD, k1]⟩
    · intro hdep
      have hdep2 : w2.deployments (keyOf g2) = none := by
        rw [hres.key, hres.deployments]; exact hdep
      refine ⟨?_, ?_, ?_⟩
      · intro dep hsyn
        obtain ⟨k1, k2, _⟩ := reconcileDeployment_create r w2 g2 dep hres.quiet hdep2
          (by rw [hsyn2]; exact hsyn)
        rw [hres.key, hfaults] at k1
        rw [hrunD, k1, hcalls2, List.append_assoc] at hrest
        exact ⟨(List.append_cancel_left hrest).symm, by rw [hrunD]; exact k2 (hfaults _ _)⟩
      · intro derr hsyn
        obtain ⟨k1, k2, _⟩ := reconcileDeployment_synthesis_error r w2 g2 derr hres.quiet
          hres.stored_self hdep2 (by rw [hsyn2]; exact hsyn)
        rw [hres.key] at k2
        rw [hrunD, k2, hcalls2, List.append_assoc] at hrest
        exact ⟨_, (List.append_cancel_left hrest).symm, hasCondition_withCondition _ _ _,
          by rw [hrunD, k1]⟩
      · intro p hsyn
        obtain ⟨k1, k2⟩ := reconcileDeployment_panic r w2 g2 p hres.quiet hdep2
          (by rw [hsyn2]; exact hsyn)
        rw [hres.key] at k2
        rw [hrunD, k2, hcalls2, List.append_assoc] at hrest
        exact ⟨(List.append_cancel_left hrest).symm, by rw [hrunD, k1]⟩

/-- C7 (amended) at a concrete input: a new resource, with the image variable set and no
Deployment stored, gets its status, its finalizer token and its Deployment in one pass. -/
theorem uninitialized_pass_witness :
    (exampleWorld freshManager none (some "genezio/manager:1.2")).calls = [] ∧
    (exampleWorld freshManager none (some "genezio/manager:1.2")).noFaults ∧
    (exampleWorld freshManager none (some "genezio/manager:1.2")).managers
      (keyOf freshManager) = some freshManager ∧
    freshManager.Status.Conditions = [] ∧
    freshManager.DeletionTimestamp = none ∧
    deploymentForGenezioManager exampleReconciler
      (exampleWorld freshManager none (some "genezio/manager:1.2")).environ freshManager =
        .val activeDeployment ∧
    (Reconcile exampleReconciler (keyOf freshManager)
      (exampleWorld freshManager none (some "genezio/manager:1.2"))).1.requeueNow = false ∧
    (Reconcile exampleReconciler (keyOf freshManager)
      (exampleWorld freshManager none (some "genezio/manager:1.2"))).1 =
        .returned { Requeue := false, RequeueAfter := timeMinute } none := by
  refine ⟨rfl, fun _ _ => rfl, rfl, rfl, rfl, rfl, ?_⟩
  obtain ⟨_, _, _, _, _, _, _, _, _, _, h, _, hB⟩ := uninitialized_pass exampleReconciler
    (exampleWorld freshManager none (some "genezio/manager:1.2")) freshManager
    rfl (fun _ _ => rfl) rfl rfl
  obtain ⟨_, _, _, _, _, hC⟩ := hB rfl
  exact ⟨h, ((hC rfl).1 activeDeployment rfl).2⟩

/-! ### C8: a resource being deleted that does not hold the token -/

/-- The deletion branch by itself leaves a resource without the token alone: no store call, an
empty result and no error. -/
theorem reconcileDelete_without_token (req : NamespacedName) (gm : GenezioManager) (w : World)
    (hfin : containsFinalizer gm geneziomanagerFinalizer = false) :
    reconcileDelete req gm w = (.returned {} none, w) := by
  simp [reconcileDelete, hfin]

/-- Whatever the deletion marker is and whatever the store answers to the write: on a stored
resource with conditions and without the token, the second store call of the pass is a
resource update that carries the token added to the finalizers; when the store refuses it, it
is the last call and the pass returns the error of the refusal. -/
theorem Reconcile_adds_token (r : GenezioManagerReconciler) (w : World) (gm : GenezioManager)
    (hlog : w.calls = []) (hget : w.faults 0 (.get (keyOf gm)) = none)
    (hst : w.managers (keyOf gm) = some gm)
    (hfin : containsFinalizer gm geneziomanagerFinalizer = false)
    (hcond : gm.Status.Conditions ≠ []) :
    ∃ u o rest,
      (Reconcile r (keyOf gm) w).2.calls = (.get (keyOf gm), none) :: (.update u, o) :: rest ∧
      u.Finalizers = gm.Finalizers ++ [geneziomanagerFinalizer] ∧
      u.DeletionTimestamp = gm.DeletionTimestamp ∧
      (∀ e, o = some e →
        rest = [] ∧ (Reconcile r (keyOf gm) w).1 = .returned {} (some e)) := by
  have hlen : gm.Status.Conditions.length ≠ 0 := fun h => hcond (List.length_eq_zero.mp h)
  have hmem : geneziomanagerFinalizer ∉ gm.Finalizers := by
    simpa [containsFinalizer] using hfin
  have hadd : addFinalizer gm geneziomanagerFinalizer =
      ({ gm with Finalizers := gm.Finalizers ++ [geneziomanagerFinalizer] }, true) := by
    simp [addFinalizer, hmem]
  have hfetch : clientGet w (keyOf gm) = (.ok gm, w.record (.get (keyOf gm)) none) := by
    simp [clientGet, World.fault, hlog, hget, hst]
  have hrun : Reconcile r (keyOf gm) w =
      reconcileFinalizer r (keyOf gm) gm (w.record (.get (keyOf gm)) none) := by
    unfold Reconcile
    rw [hfetch]
    simp [hlen]
  rw [hrun]
  unfold reconcileFinalizer
  simp only [hfin, Bool.not_false, if_true, hadd]
  split
  · rename_i err w1 hup
    have hw1 := clientUpdate_inv_error hup
    subst hw1
    exact ⟨{ gm with Finalizers := gm.Finalizers ++ [geneziomanagerFinalizer] }, some err, [],
      by simp [hlog], rfl, rfl, fun e he => by
      cases he
      exact ⟨rfl, rfl⟩⟩
  · rename_i updated w1 hup
    obtain ⟨_, _, _, hw1⟩ := clientUpdate_inv_ok hup
    obtain ⟨ext, hext, _⟩ := reconcileMarked_aborts r (keyOf gm) updated w1
    refine ⟨{ gm with Finalizers := gm.Finalizers ++ [geneziomanagerFinalizer] }, none, ext,
      ?_, rfl, rfl, fun e he => by cases he⟩
    rw [hext, hw1]
    simp [hlog]

/-- C8. The code at the failing input, a resource being deleted that another finalizer still
holds, with status conditions and without the token of this controller. The deletion branch by
itself would leave it alone (no store call, empty result, no error), as the claim says. The
pass does not: it adds the token and issues a resource update that carries it. A store that
refuses the write, as an API server does for a finalizer added under a deletion timestamp,
makes the pass return the error of the refusal; a store that accepts it gets the three writes
of the deletion sequence after it. -/
theorem deleting_resource_gets_token :
    foregroundManager.DeletionTimestamp.isSome = true ∧
    containsFinalizer foregroundManager geneziomanagerFinalizer = false ∧
    foregroundManager.Status.Conditions = [availableTrue] ∧
    (reconcileDelete (keyOf foregroundManager) foregroundManager
        (exampleWorld foregroundManager none (some "genezio/manager:1.2"))).1 =
      .returned {} none ∧
    (reconcileDelete (keyOf foregroundManager) foregroundManager
        (exampleWorld foregroundManager none (some "genezio/manager:1.2"))).2.calls = [] ∧
    digestOf (Reconcile exampleReconciler (keyOf foregroundManager)
        (failingAt (exampleWorld foregroundManager none (some "genezio/manager:1.2")) 1
          forbiddenError)).2.calls =
      [(.get, none),
       (.update ["foregroundDeletion", "finalizer.init.genezio.com"],
        some "Forbidden: no new finalizers can be added if the object is being deleted")] ∧
    (Reconcile exampleReconciler (keyOf foregroundManager)
        (failingAt (exampleWorld foregroundManager none (some "genezio/manager:1.2")) 1
          forbiddenError)).1 = .returned {} (some forbiddenError) ∧
    digestOf (writesOf (Reconcile exampleReconciler (keyOf foregroundManager)
        (exampleWorld foregroundManager none (some "genezio/manager:1.2"))).2.calls) =
      [(.update ["foregroundDeletion", "finalizer.init.genezio.com"], none),
       (.statusUpdate [("Available", .ConditionTrue, "Reconciling"),
          ("Degraded", .ConditionUnknown, "Finalizing")], none),
       (.statusUpdate [("Available", .ConditionTrue, "Reconciling"),
          ("Degraded", .ConditionTrue, "Finalizing")], none),
       (.update ["foregroundDeletion"], none)] := by
  decide

/-! ### C9: a failed write ends the pass -/

/-- C9. In every pass, whatever the store answers: when a store write (status update, resource
update, Deployment create) fails, it is the last store call of the pass (so no later write is
issued) and the pass returns exactly that error with an empty result. In particular, when the
resource has the deletion marker and the finalizer token and a status update of the pass
fails, the stored resource still carries the finalizer token after the pass. -/
theorem failed_write_aborts_pass (r : GenezioManagerReconciler) (req : NamespacedName)
    (w : World) (hlog : w.calls = []) :
    (∀ pre c e post, (Reconcile r req w).2.calls = pre ++ (c, some e) :: post →
      c.isWrite = true →
      post = [] ∧ (Reconcile r req w).1 = .returned {} (some e)) ∧
    (∀ gm, req = keyOf gm → w.managers req = some gm →
      gm.DeletionTimestamp.isSome = true →
      containsFinalizer gm geneziomanagerFinalizer = true →
      (∃ o e, (Call.statusUpdate o, some e) ∈ (Reconcile r req w).2.calls) →
      ∃ stored, (Reconcile r req w).2.managers req = some stored ∧
        containsFinalizer stored geneziomanagerFinalizer = true) := by
  constructor
  · intro pre c e post hcalls hw
    obtain ⟨ext, h1, h2⟩ := Reconcile_aborts r req w
    rw [hlog, List.nil_append] at h1
    rw [h1] at hcalls
    exact abortsAtFailedWrite_spec ext _ h2 pre post c e hcalls hw
  · intro gm hreq hst hdel hfin hfail
    subst hreq
    obtain ⟨ext, h1, h2⟩ := Reconcile_keeps r gm w hst hdel hfin
    rw [hlog, List.nil_append] at h1
    rw [h1] at hfail
    exact h2 hfail

/-- C9 at a concrete input: the second status update of the deletion sequence is refused; the
pass returns the refusal and the stored resource keeps the finalizer token. -/
theorem failed_write_aborts_pass_witness :
    (failingAt (exampleWorld deletingManager none (some "genezio/manager:1.2")) 3
      conflictError).calls = [] ∧
    digestOf (Reconcile exampleReconciler (keyOf deletingManager)
      (failingAt (exampleWorld deletingManager none (some "genezio/manager:1.2")) 3
        conflictError)).2.calls =
      [(.get, none),
       (.statusUpdate [("Available", .ConditionTrue, "Reconciling"),
          ("Degraded", .ConditionUnknown, "Finalizing")], none),
       (.get, none),
       (.statusUpdate [("Available", .ConditionTrue, "Reconciling"),
          ("Degraded", .ConditionTrue, "Finalizing")], some "the object has been modified")] ∧
    ∃ stored, (Reconcile exampleReconciler (keyOf deletingManager)
      (failingAt (exampleWorld deletingManager none (some "genezio/manager:1.2")) 3
        conflictError)).2.managers (keyOf deletingManager) = some stored ∧
      containsFinalizer stored geneziomanagerFinalizer = true := by
  refine ⟨rfl, by decide, ?_⟩
  exact (failed_write_aborts_pass exampleReconciler (keyOf deletingManager)
    (failingAt (exampleWorld deletingManager none (some "genezio/manager:1.2")) 3
      conflictError) rfl).2 deletingManager rfl rfl rfl rfl
    ⟨withCondition 100 (withCondition 100 deletingManager
        (finalizingCondition "manager")) (finalizedCondition "manager"),
      conflictError, by decide⟩

/-! ### C10: creating the Deployment -/

/-- C10. For every stored resource that is not being deleted, carries the finalizer token and
has no Deployment stored under its key, when synthesis succeeds (and the calls before the
Create are answered) the pass issues exactly one Create, as its last call, for the synthesized
Deployment, whose name and namespace are those of the resource; if the Create succeeds the pass
returns requeue-after one minute with no error, and if the Create fails the pass returns that
error with an empty result. -/
theorem create_deployment_pass (r : GenezioManagerReconciler) (w : World) (gm : GenezioManager)
    (dep : Deployment)
    (hlog : w.calls = []) (hq : w.quiet) (hst : w.managers (keyOf gm) = some gm)
    (hdel : gm.DeletionTimestamp = none)
    (hfin : containsFinalizer gm geneziomanagerFinalizer = true)
    (hdep : w.deployments (keyOf gm) = none)
    (hsyn : deploymentForGenezioManager r w.environ gm = .val dep) :
    ∃ pre o,
      (Reconcile r (keyOf gm) w).2.calls = pre ++ [(.create dep, o)] ∧
      (Reconcile r (keyOf gm) w).2.calls.filter (fun x => x.1.isCreate) = [(.create dep, o)] ∧
      dep.Name = gm.Name ∧ dep.Namespace = gm.Namespace ∧
      (o = none →
        (Reconcile r (keyOf gm) w).1 = .returned { Requeue := false, RequeueAfter := timeMinute }
          none) ∧
      (∀ e, o = some e → (Reconcile r (keyOf gm) w).1 = .returned {} (some e)) ∧
      timeMinute = 60 * 1000000000 := by
  obtain ⟨w1, g, hrun, hres, hcalls, hfins⟩ := Reconcile_enters r w gm hq hst
  have hfin1 : containsFinalizer g geneziomanagerFinalizer = true := by
    simpa [containsFinalizer, hfins] using hfin
  have hdel1 : g.DeletionTimestamp.isSome = false := by simp [hres.deletion, hdel]
  have hsyn1 : deploymentForGenezioManager r w1.environ g = .val dep := by
    rw [hres.synthesis r]; exact hsyn
  obtain ⟨h1, h2, h3⟩ := reconcileDeployment_create r w1 g dep hres.quiet
    (by rw [hres.key, hres.deployments]; exact hdep) hsyn1
  obtain ⟨_, _, _, _, hname, hns⟩ := deploymentForGenezioManager_val r w.environ gm dep hsyn
  have hrun2 : Reconcile r (keyOf gm) w = reconcileDeployment r g w1 := by
    rw [hrun, reconcileFinalizer_present _ _ _ _ hfin1]
    simp [reconcileMarked, hdel1]
  rw [hrun2, h1]
  refine ⟨w1.calls ++ [(.getDeployment (keyOf g), some (notFoundError (keyOf g)))], _,
    by simp, ?_, hname, hns, h2, h3, rfl⟩
  rw [hcalls, hlog]
  by_cases hc0 : gm.Status.Conditions.length = 0 <;> simp [hc0, Call.isCreate]

/-- C10 at a concrete input: the Create succeeds and the pass asks for a requeue in a minute. -/
theorem create_deployment_pass_witness :
    (exampleWorld activeManager none (some "genezio/manager:1.2")).calls = [] ∧
    (exampleWorld activeManager none (some "genezio/manager:1.2")).quiet ∧
    deploymentForGenezioManager exampleReconciler
      (exampleWorld activeManager none (some "genezio/manager:1.2")).environ activeManager =
        .val activeDeployment ∧
    ∃ pre,
      (Reconcile exampleReconciler (keyOf activeManager)
        (exampleWorld activeManager none (some "genezio/manager:1.2"))).2.calls =
          pre ++ [(.create activeDeployment, none)] ∧
      (Reconcile exampleReconciler (keyOf activeManager)
        (exampleWorld activeManager none (some "genezio/manager:1.2"))).1 =
          .returned { Requeue := false, RequeueAfter := 60000000000 } none := by
  refine ⟨rfl, fun _ _ _ => rfl, rfl, ?_⟩
  obtain ⟨pre, o, h1, _, _, _, h2, _, _⟩ := create_deployment_pass exampleReconciler
    (exampleWorld activeManager none (some "genezio/manager:1.2")) activeManager
    activeDeployment rfl (fun _ _ _ => rfl) rfl rfl rfl rfl rfl
  have ho : o = none := by
    have hlast : (Reconcile exampleReconciler (keyOf activeManager)
        (exampleWorld activeManager none (some "genezio/manager:1.2"))).2.calls.getLast? =
          some (.create activeDeployment, none) := by decide
    rw [h1] at hlast
    simpa using hlast
  subst ho
  exact ⟨pre, h1, h2 rfl⟩

/-! ### C11: the initial fetch fails -/

/-- C11. When the initial fetch of the resource fails with the error `e`, the fetch is the only
store call of the pass and the store is left as it was; the pass returns an empty result, with
no error when `e` is a not-found error (the pass ends successfully) and with the error `e`
itself when it is any other error. -/
theorem initial_fetch_failure (r : GenezioManagerReconciler) (req : NamespacedName)
    (w : World) (e : Error) (hlog : w.calls = [])
    (hget : (clientGet w req).1 = .error e) :
    (Reconcile r req w).2.calls = [(.get req, some e)] ∧
    (Reconcile r req w).2.managers = w.managers ∧
    (Reconcile r req w).2.deployments = w.deployments ∧
    (e.NotFound = true → (Reconcile r req w).1 = .returned {} none) ∧
    (e.NotFound = false → (Reconcile r req w).1 = .returned {} (some e)) := by
  have hrun : clientGet w req = (.error e, w.record (.get req) (some e)) := by
    rcases clientGet_cases w req with ⟨e2, h2⟩ | ⟨obj, _, h2⟩
    · rw [h2] at hget
      cases hget
      exact h2
    · rw [h2] at hget
      cases hget
  unfold Reconcile
  rw [hrun]
  refine ⟨by simp [hlog], rfl, rfl, ?_, ?_⟩
  · intro hnf
    simp [ignoreNotFound, hnf]
  · intro hnf
    simp [ignoreNotFound, hnf]

/-- C11 at two concrete inputs: a request for a resource that is not stored ends the pass
successfully after the one fetch, and a fetch that fails with an outage returns the outage. -/
theorem initial_fetch_failure_witness :
    (exampleWorld activeManager none none).calls = [] ∧
    (clientGet (exampleWorld activeManager none none) absentKey).1 =
      .error (notFoundError absentKey) ∧
    (Reconcile exampleReconciler absentKey (exampleWorld activeManager none none)).1 =
      .returned {} none ∧
    (Reconcile exampleReconciler absentKey (exampleWorld activeManager none none)).2.calls =
      [(.get absentKey, some (notFoundError absentKey))] ∧
    (clientGet (failingAt (exampleWorld activeManager none none) 0 outageError)
      (keyOf activeManager)).1 = .error outageError ∧
    (Reconcile exampleReconciler (keyOf activeManager)
      (failingAt (exampleWorld activeManager none none) 0 outageError)).1 =
        .returned {} (some outageError) := by
  obtain ⟨h1, _, _, h2, _⟩ := initial_fetch_failure exampleReconciler absentKey
    (exampleWorld activeManager none none) (notFoundError absentKey) rfl rfl
  obtain ⟨_, _, _, _, h3⟩ := initial_fetch_failure exampleReconciler (keyOf activeManager)
    (failingAt (exampleWorld activeManager none none) 0 outageError) outageError rfl rfl
  exact ⟨rfl, rfl, h2 rfl, h1, rfl, h3 rfl⟩

end GenezioOperator
